import Mathlib

/-!
# cmMetadataServer (Source/cmServer.cxx): protocol engine

A shallow embedding of the metadata server of `Source/cmServer.cxx`: the frame
decoder (`handleData`), the request queue (`PopOne`), the dispatcher
(`processRequest`), the handlers and the frame encoder (`WriteResponse`).

Conventions.
* Byte strings that the server scans or writes (`mDataBuffer`, `mJsonData`,
  queue entries, write payloads) are `List Char`.
* JsonCpp (`Json::Value`, `Json::FastWriter`, `Json::Reader`) and the cmake
  object model are not part of `cmServer.cxx`.  The value type is embedded as
  `Json.Value`; the writer, the reader, the cmake instance created by
  `new cmake`, `CMake_VERSION` and the `cmState::TargetType` ordinals are fields
  of the environment `Env`.
* JsonCpp raises an assertion failure on some accesses (`operator[]` on a
  value that is neither null nor an object, `asString()` on an array or object,
  `asCString()` on a value that is not a string), which ends the run of the
  server.  The accessors of `Json.Value` here are total; `raises` says on which
  `processRequest` calls the library raises, and the functions of the embedding
  describe the other calls.  Statements about a single call carry that as a
  hypothesis where the call reads the value.
* The server record carries, next to the members of the C++ class, observation
  logs (`written`, `completed`, `enqueued`, `dispatched`, `created`) that the code does
  not have; they only record what the code did.
-/

namespace Json

/-- The value type of JsonCpp: `Json::Value`.  Objects keep their members
sorted by key, as the `std::map` inside `Json::Value` does. -/
inductive Value where
  | null : Value
  | bool : Bool → Value
  | int : Int → Value
  | string : String → Value
  | array : List Value → Value
  | object : List (String × Value) → Value

/-- Lookup in the member list of an object. -/
def lookup (key : String) : List (String × Value) → Option Value
  | [] => none
  | (k, v) :: rest => if k = key then some v else lookup key rest

/-- Sorted insertion into the member list of an object (keys compared
character by character); an existing member with the same key is
overwritten. -/
def insert (key : String) (x : Value) : List (String × Value) → List (String × Value)
  | [] => [(key, x)]
  | (k, v) :: rest =>
    if k = key then (key, x) :: rest
    else if key.toList < k.toList then (key, x) :: (k, v) :: rest
    else (k, v) :: insert key x rest

/-- Whether `value[key]` is defined: JsonCpp accepts a string key on null and
object values only, and raises an assertion failure on every other kind. -/
def Value.indexable : Value → Bool
  | .null => true
  | .object _ => true
  | _ => false

/-- Whether `value.asString()` is defined: JsonCpp converts null, booleans,
numbers and strings, and raises on arrays and objects. -/
def Value.convertible : Value → Bool
  | .array _ => false
  | .object _ => false
  | _ => true

/-- Whether `value.asCString()` is defined: JsonCpp requires a string value. -/
def Value.isStringValue : Value → Bool
  | .string _ => true
  | _ => false

/-- Reading `value[key]` where it is defined (`indexable`): the member, or null
when there is none.  On the other kinds, where JsonCpp raises, this function
returns null; `cmMetadataServer.raises` says when `processRequest` meets such a
case. -/
def Value.get (v : Value) (key : String) : Value :=
  match v with
  | .object m => (lookup key m).getD .null
  | _ => .null

/-- Assignment `value[key] = x`; a null value becomes an object first. -/
def Value.set (v : Value) (key : String) (x : Value) : Value :=
  match v with
  | .object m => .object (insert key x m)
  | _ => .object [(key, x)]

/-- The call `value.append(x)` on an array value; a null value becomes an
array first. -/
def Value.append (v : Value) (x : Value) : Value :=
  match v with
  | .array l => .array (l ++ [x])
  | _ => .array [x]

/-- The call `value.isMember(key)`. -/
def Value.isMember (v : Value) (key : String) : Bool :=
  match v with
  | .object m => (lookup key m).isSome
  | _ => false

/-- The comparison `value == "text"` of a value with a string literal. -/
def Value.eqStr (v : Value) (text : String) : Bool :=
  match v with
  | .string t => t == text
  | _ => false

/-- The call `value.asString()` where it is defined (`convertible`): the text of
a string value, the empty string for null, the printed form of a boolean or a
number.  On arrays and objects, where JsonCpp raises, this function returns the
empty string; it also stands for `asCString()`, defined on strings only
(`isStringValue`).  `cmMetadataServer.raises` says when `processRequest` meets
such a case. -/
def Value.asString (v : Value) : String :=
  match v with
  | .string t => t
  | .bool b => if b then "true" else "false"
  | .int i => toString i
  | _ => ""

/-- The constant `Json::objectValue`: an empty object. -/
def objectValue : Value := .object []

/-- The constant `Json::arrayValue`: an empty array. -/
def arrayValue : Value := .array []

end Json

open Json

/-- A source file as the handlers see it: `GetFullPath()` and whether
`GetProperty("GENERATED")` is non-null. -/
structure cmSourceFile where
  GetFullPath : String
  GENERATED : Bool

/-- One frame of a target backtrace (`FrameContexts()`). -/
structure FrameContext where
  FilePath : String
  Line : Int

/-- The queries of `cmGeneratorTarget` used by the handlers.  `GetType` is the
ordinal of the `cmState::TargetType` enumerator. -/
structure cmGeneratorTarget where
  GetName : String
  GetType : Nat
  IsImported : Bool
  GetBacktrace : List FrameContext
  GetLocation : String → String
  HasImportLibrary : Bool
  GetFullPathImplib : String → String
  GetObjectSources : String → List cmSourceFile
  GetHeaderSources : String → List cmSourceFile
  GetCompileDefinitions : String → String → List String
  GetCompileFeatures : String → List String
  GetCompileOptions : String → String → List String
  GetIncludeDirectories : String → String → List String

/-- A local generator: its project name and its generator targets. -/
structure cmLocalGenerator where
  GetProjectName : String
  GetGeneratorTargets : List cmGeneratorTarget

/-- A target of a makefile (`cmMakefile::GetTargets`): name and type. -/
structure cmTarget where
  GetName : String
  GetType : Nat

/-- The first makefile of the global generator. -/
structure cmMakefile where
  GetConfigurations : List String
  GetTargets : List cmTarget

/-- The answers of a `cmake` instance (with its state and global generator) to
the queries the server makes. -/
structure cmake where
  LoadCache : String → Bool
  GetInitializedCacheValue : String → Option String
  Compute : Bool
  GetSourceDirectory : String
  GetBinaryDirectory : String
  GetLocalGenerators : List cmLocalGenerator
  GetMakefiles : List cmMakefile
  FindGeneratorTarget : String → Option cmGeneratorTarget

instance : Inhabited cmLocalGenerator := ⟨⟨"", []⟩⟩

instance : Inhabited cmMakefile := ⟨⟨[], []⟩⟩

/-- What `cmServer.cxx` takes from outside: JsonCpp writer and reader, the
instance `new cmake` yields, the version macro and the target type ordinals. -/
structure Env where
  /-- The result of `Json::FastWriter::write`. -/
  write : Value → List Char
  /-- The value `Json::Reader::parse` leaves in its output argument. -/
  parse : List Char → Value
  /-- The result of `Json::Reader::parse`: whether the text is valid JSON.
  `processRequest` discards it. -/
  parseOk : List Char → Bool
  /-- The instance created by `new cmake`. -/
  newCmake : cmake
  CMake_VERSION : String
  OBJECT_LIBRARY : Nat
  UTILITY : Nat
  GLOBAL_TARGET : Nat
  GetTargetTypeName : Nat → String

/-- The session state enumeration of `cmMetadataServer`. -/
inductive ServerState where
  | Uninitialized
  | Started
  | Initializing
  | ProcessingRequests
  deriving DecidableEq, Repr

/-- Observation of one `processRequest` call: its argument, the number of
writes pending completion when it was called and the session state then. -/
structure Dispatch where
  request : List Char
  pending : Nat
  state : ServerState
  deriving DecidableEq, Repr

/-- The members of `cmMetadataServer` and the observation logs. -/
structure Server where
  State : ServerState
  Writing : Bool
  mDataBuffer : List Char
  mJsonData : List Char
  mQueue : List (List Char)
  m_buildDir : String
  CMakeInstance : Option cmake
  /-- Log: the payload of every `uv_write` issued, in order. -/
  written : List (List Char)
  /-- Log: the number of `on_stdout_write` callbacks delivered. -/
  completed : Nat
  /-- Log: every message pushed onto `mQueue`, in order. -/
  enqueued : List (List Char)
  /-- Log: every `processRequest` call, in order. -/
  dispatched : List Dispatch
  /-- Log: the number of times `new cmake` has been evaluated. -/
  created : Nat

namespace cmMetadataServer

/-- The begin sentinel line. -/
def beginMagic : List Char := "[== CMake MetaMagic ==[".toList

/-- The end sentinel line. -/
def endMagic : List Char := "]== CMake MetaMagic ==]".toList

/-- The number of writes issued and not yet completed. -/
def pending (s : Server) : Nat := s.written.length - s.completed

/-- The constructor `cmMetadataServer::cmMetadataServer`. -/
def new : Server :=
  { State := .Uninitialized, Writing := false, mDataBuffer := [], mJsonData := [],
    mQueue := [], m_buildDir := "", CMakeInstance := none,
    written := [], completed := 0, enqueued := [], dispatched := [], created := 0 }

/-- The function `write_data`: one `uv_write` of `content`. -/
def write_data (s : Server) (content : List Char) : Server :=
  { s with written := s.written ++ [content] }

/-- The method `cmMetadataServer::WriteResponse`. -/
def WriteResponse (env : Env) (s : Server) (jsonValue : Value) : Server :=
  let result := '\n' :: beginMagic ++ ['\n']
  let result := result ++ env.write jsonValue
  let result := result ++ (endMagic ++ ['\n'])
  let s := { s with Writing := true }
  write_data s result

/-- The method `cmMetadataServer::ProcessHandshake`. -/
def ProcessHandshake (env : Env) (s : Server) (_protocolVersion : String) : Server :=
  let s := { s with State := .Initializing }
  let s := { s with CMakeInstance := some env.newCmake, created := s.created + 1 }
  let cm := env.newCmake
  if !cm.LoadCache s.m_buildDir then s
  else
    match cm.GetInitializedCacheValue "CMAKE_GENERATOR" with
    | none => s
    | some _genName =>
      match cm.GetInitializedCacheValue "CMAKE_HOME_DIRECTORY" with
      | none => s
      | some _sourceDir =>
        let obj := objectValue
        let obj := obj.set "progress" (.string "initialized")
        let s := WriteResponse env s obj
        let obj := obj.set "progress" (.string "configured")
        let s := WriteResponse env s obj
        if !cm.Compute then s
        else
          let obj := obj.set "progress" (.string "computed")
          let s := WriteResponse env s obj
          let srcDir := cm.GetSourceDirectory
          let idleObj := objectValue
          let idleObj := idleObj.set "progress" (.string "idle")
          let idleObj := idleObj.set "source_dir" (.string srcDir)
          let idleObj := idleObj.set "binary_dir" (.string cm.GetBinaryDirectory)
          let idleObj := idleObj.set "project_name"
            (.string (cm.GetLocalGenerators.getD 0 default).GetProjectName)
          let s := { s with State := .ProcessingRequests }
          WriteResponse env s idleObj

/-- The method `cmMetadataServer::ProcessVersion`. -/
def ProcessVersion (env : Env) (s : Server) : Server :=
  let obj := objectValue
  let obj := obj.set "version" (.string env.CMake_VERSION)
  WriteResponse env s obj

/-- The backtrace array built for one target in `ProcessBuildsystem`. -/
def backtraceValue (frames : List FrameContext) : Value :=
  frames.foldl
    (fun bt lbtF =>
      let fff := objectValue
      let fff := fff.set "path" (.string lbtF.FilePath)
      let fff := fff.set "line" (.int lbtF.Line)
      bt.append fff)
    arrayValue

/-- The body of the inner loop of `ProcessBuildsystem`: the entry appended to
`targets` for one generator target, or none when the target is skipped. -/
def buildsystemTarget (env : Env) (lg : cmLocalGenerator) (tgt : cmGeneratorTarget) :
    Option Value :=
  if tgt.IsImported then none
  else if tgt.GetType = env.GLOBAL_TARGET then none
  else
    let target := objectValue
    let target := target.set "name" (.string tgt.GetName)
    let target := target.set "type" (.string (env.GetTargetTypeName tgt.GetType))
    let target :=
      if tgt.GetType ≤ env.UTILITY then
        target.set "backtrace" (backtraceValue tgt.GetBacktrace)
      else target
    let target := target.set "projectName" (.string lg.GetProjectName)
    some target

/-- The method `cmMetadataServer::ProcessBuildsystem`. -/
def ProcessBuildsystem (env : Env) (s : Server) : Server :=
  match s.CMakeInstance with
  | none => s
  | some cm =>
    let mf := cm.GetMakefiles.getD 0 default
    let lg := cm.GetLocalGenerators.getD 0 default
    let configs := mf.GetConfigurations.foldl (fun a config => a.append (.string config))
      arrayValue
    let gens := cm.GetLocalGenerators
    let firstMf := cm.GetMakefiles.getD 0 default
    let firstTgts := firstMf.GetTargets
    let globalTargets := firstTgts.foldl
      (fun a tgt => if tgt.GetType = env.GLOBAL_TARGET then a.append (.string tgt.GetName) else a)
      arrayValue
    let targets := gens.foldl
      (fun a gen => gen.GetGeneratorTargets.foldl
        (fun a tgt =>
          match buildsystemTarget env lg tgt with
          | none => a
          | some target => a.append target)
        a)
      arrayValue
    let obj := objectValue
    let obj := obj.set "configs" configs
    let obj := obj.set "globalTargets" globalTargets
    let obj := obj.set "targets" targets
    let root := objectValue.set "buildsystem" obj
    WriteResponse env s root

/-- The two source lists of `ProcessTargetInfo`: the paths of the files without
and with the GENERATED property, each in the order of `files`. -/
def splitGenerated (files : List cmSourceFile) : Value × Value :=
  files.foldl
    (fun acc sf =>
      let filePath := sf.GetFullPath
      if sf.GENERATED then (acc.1, acc.2.append (.string filePath))
      else (acc.1.append (.string filePath), acc.2))
    (arrayValue, arrayValue)

/-- An array value holding the given strings, built by repeated `append`. -/
def stringArray (items : List String) : Value :=
  items.foldl (fun a item => a.append (.string item)) arrayValue

/-- The method `cmMetadataServer::ProcessTargetInfo`; `language` is none for a
null pointer. -/
def ProcessTargetInfo (env : Env) (s : Server) (tgtName config : String)
    (language : Option String) : Server :=
  match s.CMakeInstance with
  | none => s
  | some cm =>
    match cm.FindGeneratorTarget tgtName with
    | none => s
    | some tgt =>
      let root := objectValue
      let root :=
        if tgt.GetType ≠ env.GLOBAL_TARGET ∧ tgt.GetType ≠ env.UTILITY
            ∧ tgt.GetType ≠ env.OBJECT_LIBRARY then
          let root := root.set "build_location" (.string (tgt.GetLocation config))
          if tgt.HasImportLibrary then
            root.set "build_implib" (.string (tgt.GetFullPathImplib config))
          else root
        else root
      let files := tgt.GetObjectSources config
      let root := root.set "object_sources" (splitGenerated files).1
      let root := root.set "generated_object_sources" (splitGenerated files).2
      let files := tgt.GetHeaderSources config
      let root := root.set "header_sources" (splitGenerated files).1
      let root := root.set "generated_header_sources" (splitGenerated files).2
      let lang := language.getD "C"
      let cdefs := tgt.GetCompileDefinitions config lang
      let root := root.set "compile_definitions" (stringArray cdefs)
      -- `GetCompileFeatures(cdefs, config)` appends to `cdefs`; `features` is iterated
      let features : List String := []
      let cdefs := cdefs ++ tgt.GetCompileFeatures config
      let root := root.set "compile_features" (stringArray features)
      -- `GetCompileOptions(cdefs, config, lang)` appends to `cdefs`; `options` is iterated
      let options : List String := []
      let _cdefs := cdefs ++ tgt.GetCompileOptions config lang
      let root := root.set "compile_options" (stringArray options)
      let dirs := tgt.GetIncludeDirectories lang config
      let root := root.set "include_directories" (stringArray dirs)
      let obj := objectValue.set "target_info" root
      WriteResponse env s obj

/-- The method `cmMetadataServer::ProcessFileInfo`. -/
def ProcessFileInfo (env : Env) (s : Server) (tgtName config file_path : String) : Server :=
  match s.CMakeInstance with
  | none => s
  | some cm =>
    match cm.FindGeneratorTarget tgtName with
    | none => s
    | some tgt =>
      let obj := objectValue
      let files := tgt.GetObjectSources config
      match files.find? (fun sf => sf.GetFullPath == file_path) with
      | none => s
      | some _file => WriteResponse env s obj

/-- The method `cmMetadataServer::processRequest`. -/
def processRequest (env : Env) (s : Server) (json : List Char) : Server :=
  let s := { s with dispatched := s.dispatched ++ [⟨json, pending s, s.State⟩] }
  let value := env.parse json
  let s :=
    if s.State = .Started then
      if (value.get "type").eqStr "handshake" then
        ProcessHandshake env s (value.get "protocolVersion").asString
      else s
    else s
  if s.State = .ProcessingRequests then
    let s :=
      if (value.get "type").eqStr "version" then ProcessVersion env s else s
    let s :=
      if (value.get "type").eqStr "buildsystem" then ProcessBuildsystem env s else s
    let s :=
      if (value.get "type").eqStr "target_info" then
        let language : Option String :=
          if value.isMember "language" then some (value.get "language").asString else none
        ProcessTargetInfo env s (value.get "target_name").asString
          (value.get "config").asString language
      else s
    let s :=
      if (value.get "type").eqStr "file_info" then
        ProcessFileInfo env s (value.get "target_name").asString
          (value.get "config").asString (value.get "file_path").asString
      else s
    s
  else s

/-- Whether JsonCpp raises an assertion failure while `processRequest` handles
`json`, which ends the run of the server: `value["type"]` on a value that is
neither null nor an object (Started and ProcessingRequests; in the other states
the value is not touched), `asString()` on an array or object (protocolVersion
of a handshake; target_name, config and file_path of target_info and
file_info), `asCString()` on a language member that is not a string.  The
functions of this embedding describe the calls on which it is false. -/
def raises (env : Env) (s : Server) (json : List Char) : Bool :=
  let value := env.parse json
  match s.State with
  | .Uninitialized => false
  | .Started =>
    !value.indexable
      || ((value.get "type").eqStr "handshake" && !(value.get "protocolVersion").convertible)
  | .Initializing => false
  | .ProcessingRequests =>
    !value.indexable
      || ((value.get "type").eqStr "target_info"
          && ((value.isMember "language" && !(value.get "language").isStringValue)
              || !(value.get "target_name").convertible || !(value.get "config").convertible))
      || ((value.get "type").eqStr "file_info"
          && (!(value.get "target_name").convertible || !(value.get "config").convertible
              || !(value.get "file_path").convertible))

/-- The method `cmMetadataServer::PopOne`. -/
def PopOne (env : Env) (s : Server) : Server :=
  let s := { s with Writing := false }
  match s.mQueue with
  | [] => s
  | front :: _ =>
    let s := processRequest env s front
    { s with mQueue := s.mQueue.drop 1 }

/-- The callback `on_stdout_write`: one write has completed. -/
def on_stdout_write (env : Env) (s : Server) : Server :=
  let s := { s with completed := s.completed + 1 }
  PopOne env s

/-- The call `mDataBuffer.find(c)`: the index of the first `c`, none for
`npos`. -/
def find (c : Char) : List Char → Option Nat
  | [] => none
  | x :: xs => if x = c then some 0 else (find c xs).map (· + 1)

/-- The loop of `handleData`.  Every iteration that does not return removes
at least one byte from `mDataBuffer`, so `fuel` iterations are enough when
`fuel` is the length of the buffer. -/
def handleLoop (env : Env) : Nat → Server → Server
  | 0, s => s
  | fuel + 1, s =>
    match find '\n' s.mDataBuffer with
    | none => s
    | some needle =>
      let line := s.mDataBuffer.take needle
      let s := { s with mDataBuffer := s.mDataBuffer.drop (needle + 1) }
      if line = beginMagic then
        let s := { s with mJsonData := [] }
        handleLoop env fuel s
      else
        let s := { s with mJsonData := s.mJsonData ++ line }
        let s := { s with mJsonData := s.mJsonData ++ ['\n'] }
        if line = endMagic then
          let s := { s with mQueue := s.mQueue ++ [s.mJsonData],
                            enqueued := s.enqueued ++ [s.mJsonData] }
          let s := { s with mJsonData := [] }
          let s := if !s.Writing then PopOne env s else s
          handleLoop env fuel s
        else
          handleLoop env fuel s

/-- The method `cmMetadataServer::handleData`. -/
def handleData (env : Env) (s : Server) (data : List Char) : Server :=
  let s := { s with mDataBuffer := s.mDataBuffer ++ data }
  handleLoop env s.mDataBuffer.length s

/-- The method `cmMetadataServer::ServeMetadata`, up to the start of the event
loop. -/
def ServeMetadata (env : Env) (s : Server) (buildDir : String) : Server :=
  let s := { s with m_buildDir := buildDir }
  let s := { s with State := .Started }
  let obj := objectValue
  let obj := obj.set "progress" (.string "process-started")
  WriteResponse env s obj

/-- What the event loop delivers: a chunk read from stdin (`read_stdin` with
`nread > 0`) or the completion of the oldest pending write. -/
inductive Event where
  | chunk (data : List Char)
  | writeDone

/-- One turn of the event loop; a completion can only be delivered while a
write is pending. -/
def step (env : Env) (s : Server) : Event → Option Server
  | .chunk data => some (handleData env s data)
  | .writeDone => if s.completed < s.written.length then some (on_stdout_write env s) else none

/-- A sequence of turns of the event loop. -/
def run (env : Env) (s : Server) : List Event → Option Server
  | [] => some s
  | e :: es => (step env s e).bind (fun s => run env s es)

/-- The server as `ServeMetadata` leaves it when the event loop starts. -/
def start (env : Env) (buildDir : String) : Server :=
  ServeMetadata env new buildDir

/-- Feeding a sequence of chunks, one `handleData` call per chunk. -/
def feed (env : Env) (s : Server) (chunks : List (List Char)) : Server :=
  chunks.foldl (handleData env) s

/-- The position of a session state in the order Uninitialized, Started,
Initializing, ProcessingRequests. -/
def rank : ServerState → Nat
  | .Uninitialized => 0
  | .Started => 1
  | .Initializing => 2
  | .ProcessingRequests => 3

/-- The complete lines of a text (each without its newline) and the text after
the last newline. -/
def splitLines : List Char → List (List Char) × List Char
  | [] => ([], [])
  | c :: cs =>
    if c = '\n' then ([] :: (splitLines cs).1, (splitLines cs).2)
    else
      match (splitLines cs).1 with
      | [] => ([], c :: (splitLines cs).2)
      | l :: ls => ((c :: l) :: ls, (splitLines cs).2)

/-- One iteration of the loop of `handleData`, after `line` has been cut off
the buffer: the classification of the line and what follows from it. -/
def handleLine (env : Env) (s : Server) (line : List Char) : Server :=
  if line = beginMagic then { s with mJsonData := [] }
  else
    let s := { s with mJsonData := s.mJsonData ++ line }
    let s := { s with mJsonData := s.mJsonData ++ ['\n'] }
    if line = endMagic then
      let s := { s with mQueue := s.mQueue ++ [s.mJsonData],
                        enqueued := s.enqueued ++ [s.mJsonData] }
      let s := { s with mJsonData := [] }
      if !s.Writing then PopOne env s else s
    else s

/-- The frame of a handler: `s2` arises from `s1` by issuing the writes `ws`,
with the decoder, the queue and the logs other than `written` untouched. -/
def Wrote (s1 s2 : Server) (ws : List (List Char)) : Prop :=
  s2.written = s1.written ++ ws ∧
  (ws = [] → s2.Writing = s1.Writing) ∧ (ws ≠ [] → s2.Writing = true) ∧
  s2.mDataBuffer = s1.mDataBuffer ∧ s2.mJsonData = s1.mJsonData ∧ s2.mQueue = s1.mQueue ∧
  s2.m_buildDir = s1.m_buildDir ∧ s2.completed = s1.completed ∧
  s2.enqueued = s1.enqueued ∧ s2.dispatched = s1.dispatched

/-- The writes issued between `s1` and a later server `s2`. -/
def newWrites (s1 s2 : Server) : List (List Char) :=
  s2.written.drop s1.written.length

/-- The invariant of the queue and writer bookkeeping. -/
structure Inv (s : Server) : Prop where
  completed_le : s.completed ≤ s.written.length
  pending_le : pending s ≤ 4
  idle_le : s.Writing = false → pending s ≤ 3
  started_le : s.State = .Started → pending s ≤ 1
  started_idle : s.State = .Started → s.Writing = false → pending s = 0
  dispatch_le : ∀ d ∈ s.dispatched, d.pending ≤ 3 ∧ (d.state = .Started → d.pending = 0)
  fifo : s.enqueued = s.dispatched.map (fun d => d.request) ++ s.mQueue
  instance_some : s.State = .ProcessingRequests → s.CMakeInstance.isSome = true

/-- The decoder on its own: what one complete line does to the accumulator
(first component) and to the messages enqueued so far (second component). -/
def decodeLine (d : List Char × List (List Char)) (line : List Char) :
    List Char × List (List Char) :=
  if line = beginMagic then ([], d.2)
  else if line = endMagic then ([], d.2 ++ [d.1 ++ line ++ ['\n']])
  else (d.1 ++ line ++ ['\n'], d.2)

/-- A text as newline-terminated lines. -/
def unlines (ls : List (List Char)) : List Char :=
  (ls.map (fun l => l ++ ['\n'])).flatten

/-- The request kinds that the dispatcher accepts in a session state, by the
`type` member of the request. -/
def legal (st : ServerState) (type : Value) : Bool :=
  match st with
  | .Uninitialized => false
  | .Started => type.eqStr "handshake"
  | .Initializing => false
  | .ProcessingRequests =>
    type.eqStr "version" || type.eqStr "buildsystem" || type.eqStr "target_info"
      || type.eqStr "file_info"

/-- A state is reachable when a trace of chunk arrivals and write completions
leads to it from the start of the event loop. -/
def Reachable (env : Env) (s : Server) : Prop :=
  ∃ buildDir es, run env (start env buildDir) es = some s

/-- The handshake fails before its first write: the cache does not load, or
the generator name or the home directory is missing from it. -/
def failsEarly (cm : cmake) (buildDir : String) : Bool :=
  !cm.LoadCache buildDir || (cm.GetInitializedCacheValue "CMAKE_GENERATOR").isNone
    || (cm.GetInitializedCacheValue "CMAKE_HOME_DIRECTORY").isNone

/-- The handshake fails at some step. -/
def handshakeFails (cm : cmake) (buildDir : String) : Bool :=
  failsEarly cm buildDir || !cm.Compute

/-- A progress notification object. -/
def progress (text : String) : Value :=
  .object [("progress", .string text)]

/-- The payload `WriteResponse` hands to `write_data` for a value. -/
def payload (env : Env) (v : Value) : List Char :=
  '\n' :: beginMagic ++ ['\n'] ++ env.write v ++ (endMagic ++ ['\n'])

/-- The server once a `processRequest` call on `json` has been recorded in the
dispatch log and before any handler has run. -/
def logged (s : Server) (json : List Char) : Server :=
  { s with dispatched := s.dispatched ++ [⟨json, pending s, s.State⟩] }

/-- The invariant of the Writing flag and of the provider instances created. -/
structure FlagInv (s : Server) : Prop where
  completed_le : s.completed ≤ s.written.length
  writing_pending : s.Writing = true → s.completed < s.written.length
  started_none : s.State = .Started → s.created = 0
  created_le : s.created ≤ 1

/-- The lookup of `file_info` in the words of the spec: the provider finds the
target and the path is the full path of one of its object sources for the
configuration. -/
def fileFound (cm : cmake) (tgtName config file_path : String) : Bool :=
  match cm.FindGeneratorTarget tgtName with
  | none => false
  | some tgt => decide (file_path ∈ (tgt.GetObjectSources config).map fun sf => sf.GetFullPath)

/-- The full paths of the files whose GENERATED property is as given, in the
order of the files. -/
def sourcePaths (files : List cmSourceFile) (generated : Bool) : List String :=
  (files.filter fun sf => sf.GENERATED == generated).map fun sf => sf.GetFullPath

/-- An array value of strings. -/
def strings (items : List String) : Value :=
  .array (items.map Value.string)

/-- The provider targets that `buildsystem` lists: every generator target of
every local generator, in enumeration order, that is neither imported nor of
the global kind. -/
def listedTargets (env : Env) (cm : cmake) : List cmGeneratorTarget :=
  (cm.GetLocalGenerators.flatMap fun gen => gen.GetGeneratorTargets).filter
    fun t => !t.IsImported && !decide (t.GetType = env.GLOBAL_TARGET)

/-- One backtrace frame as a path/line pair. -/
def frameEntry (f : FrameContext) : Value :=
  .object [("line", .int f.Line), ("path", .string f.FilePath)]

/-- The entry of a target in the `targets` list: name, type tag, a project
name, and the backtrace when the kind is at or below the utility ordinal. -/
def targetEntry (env : Env) (projectName : String) (t : cmGeneratorTarget) : Value :=
  if t.GetType ≤ env.UTILITY then
    .object [("backtrace", .array (t.GetBacktrace.map frameEntry)),
      ("name", .string t.GetName), ("projectName", .string projectName),
      ("type", .string (env.GetTargetTypeName t.GetType))]
  else
    .object [("name", .string t.GetName), ("projectName", .string projectName),
      ("type", .string (env.GetTargetTypeName t.GetType))]

/-- The lines that follow the last begin sentinel line of a list of lines; all
the lines when none of them is the begin sentinel. -/
def sinceBegin (ls : List (List Char)) : List (List Char) :=
  ls.foldl (fun kept l => if l = beginMagic then [] else kept ++ [l]) []

/-- The outcome of a `processRequest` call: none when JsonCpp raises, which ends
the run, and the server after the call otherwise. -/
def processRequestOutcome (env : Env) (s : Server) (json : List Char) : Option Server :=
  if raises env s json then none else some (processRequest env s json)

end cmMetadataServer

/-! ## A fake environment

A small concrete environment, used to run the server on concrete inputs: a
compact one-line writer, a reader that knows the request texts used below, and
a provider with generator "Fake", source directory "/src" and one project
"demo" with an executable target "app". -/

namespace Fake

/-- A quoted JSON string; quote, backslash and newline are escaped. -/
def quote (t : String) : List Char :=
  '"' :: (t.toList.flatMap fun c =>
    if c = '"' then ['\\', '"']
    else if c = '\\' then ['\\', '\\']
    else if c = '\n' then ['\\', 'n']
    else [c]) ++ ['"']

mutual
/-- Compact JSON text of a value, without the final newline. -/
def writeValue : Value → List Char
  | .null => "null".toList
  | .bool b => if b then "true".toList else "false".toList
  | .int i => (toString i).toList
  | .string t => quote t
  | .array l => '[' :: writeArray l ++ [']']
  | .object m => '{' :: writeMembers m ++ ['}']
/-- The elements of an array, separated by commas. -/
def writeArray : List Value → List Char
  | [] => []
  | v :: rest => writeValue v ++ (if rest.isEmpty then [] else ',' :: writeArray rest)
/-- The members of an object, separated by commas. -/
def writeMembers : List (String × Value) → List Char
  | [] => []
  | (k, v) :: rest =>
    quote k ++ ':' :: writeValue v ++ (if rest.isEmpty then [] else ',' :: writeMembers rest)
end

/-- The writer: compact JSON text on one line, then a newline. -/
def write (v : Value) : List Char := writeValue v ++ ['\n']

/-- The reader: it reads the JSON document on the first line of the text and
ignores what follows it; it knows the documents with a single `type` member
naming one of the request kinds, and leaves null for any other text. -/
def parse (text : List Char) : Value :=
  let doc := text.takeWhile (fun c => c ≠ '\n')
  if doc = "\x7b\"type\":\"handshake\"\x7d".toList then
    .object [("type", .string "handshake")]
  else if doc = "\x7b\"type\":\"version\"\x7d".toList then
    .object [("type", .string "version")]
  else if doc = "\x7b\"type\":\"buildsystem\"\x7d".toList then
    .object [("type", .string "buildsystem")]
  else .null

/-- The reader's verdict: the text is valid when its first line is one of the
documents the reader knows. -/
def parseOk (text : List Char) : Bool :=
  let doc := text.takeWhile (fun c => c ≠ '\n')
  doc = "\x7b\"type\":\"handshake\"\x7d".toList || doc = "\x7b\"type\":\"version\"\x7d".toList
    || doc = "\x7b\"type\":\"buildsystem\"\x7d".toList

/-- A reader that, like `Json::Reader`, keeps the members it has read when it
meets a syntax error: for the handshake document cut before its closing brace
it leaves the object with the type member; otherwise it is `parse`. -/
def parseKeeping (text : List Char) : Value :=
  let doc := text.takeWhile (fun c => c ≠ '\n')
  if doc = "\x7b\"type\":\"handshake\"".toList then
    .object [("type", .string "handshake")]
  else parse text

/-- The target "app": an executable with two object sources, one generated. -/
def app : cmGeneratorTarget :=
  { GetName := "app", GetType := 0, IsImported := false,
    GetBacktrace := [⟨"/src/CMakeLists.txt", 3⟩],
    GetLocation := fun config => "/build/" ++ config ++ "/app",
    HasImportLibrary := false,
    GetFullPathImplib := fun _ => "",
    GetObjectSources := fun _ => [⟨"/src/main.c", false⟩, ⟨"/build/gen.c", true⟩],
    GetHeaderSources := fun _ => [⟨"/src/main.h", false⟩],
    GetCompileDefinitions := fun _ _ => ["APP=1"],
    GetCompileFeatures := fun _ => ["c_std_99"],
    GetCompileOptions := fun _ _ => ["-Wall"],
    GetIncludeDirectories := fun _ _ => ["/src/include"] }

/-- The provider: every step of the handshake succeeds. -/
def provider : cmake :=
  { LoadCache := fun _ => true,
    GetInitializedCacheValue := fun key =>
      if key = "CMAKE_GENERATOR" then some "Fake"
      else if key = "CMAKE_HOME_DIRECTORY" then some "/src"
      else none,
    Compute := true,
    GetSourceDirectory := "/src",
    GetBinaryDirectory := "/build",
    GetLocalGenerators := [⟨"demo", [app]⟩],
    GetMakefiles := [⟨["Debug"], [⟨"app", 0⟩]⟩],
    FindGeneratorTarget := fun name => if name = "app" then some app else none }

/-- The fake environment.  The target type ordinals are those of
`cmState::TargetType`: EXECUTABLE 0, ..., OBJECT_LIBRARY 4, UTILITY 5,
GLOBAL_TARGET 6. -/
def env : Env :=
  { write := write, parse := parse, parseOk := parseOk, newCmake := provider,
    CMake_VERSION := "3.4.0",
    OBJECT_LIBRARY := 4, UTILITY := 5, GLOBAL_TARGET := 6,
    GetTargetTypeName := fun t =>
      if t = 0 then "EXECUTABLE" else if t = 5 then "UTILITY" else "LIBRARY" }

/-- A request frame as a client sends it: begin sentinel line, the document on
one line, end sentinel line. -/
def frame (doc : String) : List Char :=
  cmMetadataServer.beginMagic ++ '\n' :: doc.toList ++ '\n' :: cmMetadataServer.endMagic ++ ['\n']

/-- The handshake request frame. -/
def handshake : List Char := frame "\x7b\"type\":\"handshake\"\x7d"

/-- The version request frame. -/
def version : List Char := frame "\x7b\"type\":\"version\"\x7d"

/-- The body the decoder enqueues for the handshake request frame. -/
def handshakeBody : List Char :=
  "\x7b\"type\":\"handshake\"\x7d\n]== CMake MetaMagic ==]\n".toList

/-- The body the decoder enqueues for the version request frame. -/
def versionBody : List Char :=
  "\x7b\"type\":\"version\"\x7d\n]== CMake MetaMagic ==]\n".toList

/-- The fake environment with the reader that keeps what it has read. -/
def envKeeping : Env :=
  { env with parse := parseKeeping }

/-- The handshake document cut before its closing brace, as the decoder
enqueues it: not valid JSON. -/
def cutHandshakeBody : List Char :=
  "\x7b\"type\":\"handshake\"\n]== CMake MetaMagic ==]\n".toList

/-- A fake environment whose provider fails at the compute step. -/
def envComputeFails : Env :=
  { env with newCmake := { provider with Compute := false } }

/-- A fake environment whose provider cannot load the cache. -/
def envNoCache : Env :=
  { env with newCmake := { provider with LoadCache := fun _ => false } }

/-- The server after a successful handshake: the handshake request arrived
while the first write was pending, and that write has completed. -/
def ready : Server :=
  cmMetadataServer.on_stdout_write env
    (cmMetadataServer.handleData env (cmMetadataServer.start env "/build") handshake)

/-- A static library declared in the subdirectory project. -/
def lib : cmGeneratorTarget :=
  { app with GetName := "lib", GetType := 1,
             GetBacktrace := [⟨"/src/sub/CMakeLists.txt", 2⟩] }

/-- An imported target. -/
def ext : cmGeneratorTarget :=
  { app with GetName := "ext", GetType := 2, IsImported := true, GetBacktrace := [] }

/-- A target of the global kind. -/
def install : cmGeneratorTarget :=
  { app with GetName := "install", GetType := 6, GetBacktrace := [] }

/-- An interface library: its kind is above the utility ordinal. -/
def iface : cmGeneratorTarget :=
  { app with GetName := "iface", GetType := 7 }

/-- A provider with two local generators: the top-level project "demo" and the
project "sub" of a subdirectory. -/
def providerTwo : cmake :=
  { provider with
    GetLocalGenerators := [⟨"demo", [app, ext]⟩, ⟨"sub", [lib, install, iface]⟩] }

/-- The fake environment with the two-project provider. -/
def envTwo : Env :=
  { env with newCmake := providerTwo }

/-- The server after a successful handshake against the two-project provider. -/
def readyTwo : Server :=
  cmMetadataServer.on_stdout_write envTwo
    (cmMetadataServer.handleData envTwo (cmMetadataServer.start envTwo "/build") handshake)

end Fake

open cmMetadataServer

set_option maxRecDepth 100000

/-! ## Handlers: what they leave untouched -/

theorem WriteResponse_setBuf (env : Env) (s : Server) (b : List Char) (v : Value) :
    WriteResponse env { s with mDataBuffer := b } v
      = { WriteResponse env s v with mDataBuffer := b } := rfl

theorem ProcessHandshake_setBuf (env : Env) (s : Server) (b : List Char) (pv : String) :
    ProcessHandshake env { s with mDataBuffer := b } pv
      = { ProcessHandshake env s pv with mDataBuffer := b } := by
  unfold ProcessHandshake
  simp only []
  split
  · rfl
  · split
    · rfl
    · split
      · rfl
      · split <;> rfl

theorem ProcessVersion_setBuf (env : Env) (s : Server) (b : List Char) :
    ProcessVersion env { s with mDataBuffer := b }
      = { ProcessVersion env s with mDataBuffer := b } := rfl

theorem ProcessBuildsystem_setBuf (env : Env) (s : Server) (b : List Char) :
    ProcessBuildsystem env { s with mDataBuffer := b }
      = { ProcessBuildsystem env s with mDataBuffer := b } := by
  obtain ⟨st, w, buf, js, q, bd, ci, wr, co, en, di, nc⟩ := s
  cases ci <;> rfl

theorem ProcessTargetInfo_setBuf (env : Env) (s : Server) (b : List Char) (t c : String)
    (l : Option String) :
    ProcessTargetInfo env { s with mDataBuffer := b } t c l
      = { ProcessTargetInfo env s t c l with mDataBuffer := b } := by
  obtain ⟨st, w, buf, js, q, bd, ci, wr, co, en, di, nc⟩ := s
  cases ci with
  | none => rfl
  | some cm =>
    simp only [ProcessTargetInfo]
    cases cm.FindGeneratorTarget t <;> rfl

theorem ProcessFileInfo_setBuf (env : Env) (s : Server) (b : List Char) (t c f : String) :
    ProcessFileInfo env { s with mDataBuffer := b } t c f
      = { ProcessFileInfo env s t c f with mDataBuffer := b } := by
  obtain ⟨st, w, buf, js, q, bd, ci, wr, co, en, di, nc⟩ := s
  cases ci with
  | none => rfl
  | some cm =>
    simp only [ProcessFileInfo]
    cases cm.FindGeneratorTarget t with
    | none => rfl
    | some tgt =>
      simp only []
      cases List.find? (fun sf => sf.GetFullPath == f) (tgt.GetObjectSources c) <;> rfl

theorem eqStr_unique {v : Value} {a b : String} (ha : v.eqStr a = true)
    (hb : v.eqStr b = true) : a = b := by
  cases v <;> simp_all [Value.eqStr]

theorem eqStr_excl {v : Value} {a b : String} (hab : a ≠ b) (ha : v.eqStr a = true) :
    v.eqStr b = false := by
  cases hb : v.eqStr b
  · rfl
  · exact absurd (eqStr_unique ha hb) hab

theorem processRequest_handshake (env : Env) (s : Server) (j : List Char)
    (hS : s.State = .Started) (hT : ((env.parse j).get "type").eqStr "handshake" = true) :
    processRequest env s j
      = ProcessHandshake env (logged s j) ((env.parse j).get "protocolVersion").asString := by
  have h1 := eqStr_excl (b := "version") (by decide) hT
  have h2 := eqStr_excl (b := "buildsystem") (by decide) hT
  have h3 := eqStr_excl (b := "target_info") (by decide) hT
  have h4 := eqStr_excl (b := "file_info") (by decide) hT
  simp [processRequest, logged, hS, hT, h1, h2, h3, h4]

theorem processRequest_version (env : Env) (s : Server) (j : List Char)
    (hS : s.State = .ProcessingRequests)
    (hT : ((env.parse j).get "type").eqStr "version" = true) :
    processRequest env s j = ProcessVersion env (logged s j) := by
  have h2 := eqStr_excl (b := "buildsystem") (by decide) hT
  have h3 := eqStr_excl (b := "target_info") (by decide) hT
  have h4 := eqStr_excl (b := "file_info") (by decide) hT
  simp [processRequest, logged, hS, hT, h2, h3, h4]

theorem processRequest_buildsystem (env : Env) (s : Server) (j : List Char)
    (hS : s.State = .ProcessingRequests)
    (hT : ((env.parse j).get "type").eqStr "buildsystem" = true) :
    processRequest env s j = ProcessBuildsystem env (logged s j) := by
  have h1 := eqStr_excl (b := "version") (by decide) hT
  have h3 := eqStr_excl (b := "target_info") (by decide) hT
  have h4 := eqStr_excl (b := "file_info") (by decide) hT
  simp [processRequest, logged, hS, hT, h1, h3, h4]

theorem processRequest_target_info (env : Env) (s : Server) (j : List Char)
    (hS : s.State = .ProcessingRequests)
    (hT : ((env.parse j).get "type").eqStr "target_info" = true) :
    processRequest env s j
      = ProcessTargetInfo env (logged s j) ((env.parse j).get "target_name").asString
          ((env.parse j).get "config").asString
          (if (env.parse j).isMember "language" then
            some ((env.parse j).get "language").asString else none) := by
  have h1 := eqStr_excl (b := "version") (by decide) hT
  have h2 := eqStr_excl (b := "buildsystem") (by decide) hT
  have h4 := eqStr_excl (b := "file_info") (by decide) hT
  simp [processRequest, logged, hS, hT, h1, h2, h4]

theorem processRequest_file_info (env : Env) (s : Server) (j : List Char)
    (hS : s.State = .ProcessingRequests)
    (hT : ((env.parse j).get "type").eqStr "file_info" = true) :
    processRequest env s j
      = ProcessFileInfo env (logged s j) ((env.parse j).get "target_name").asString
          ((env.parse j).get "config").asString ((env.parse j).get "file_path").asString := by
  have h1 := eqStr_excl (b := "version") (by decide) hT
  have h2 := eqStr_excl (b := "buildsystem") (by decide) hT
  have h3 := eqStr_excl (b := "target_info") (by decide) hT
  simp [processRequest, logged, hS, hT, h1, h2, h3]

theorem processRequest_dropped (env : Env) (s : Server) (j : List Char)
    (hA : ¬ (s.State = .Started ∧ ((env.parse j).get "type").eqStr "handshake" = true))
    (hB : ¬ (s.State = .ProcessingRequests ∧
          (((env.parse j).get "type").eqStr "version" = true ∨
           ((env.parse j).get "type").eqStr "buildsystem" = true ∨
           ((env.parse j).get "type").eqStr "target_info" = true ∨
           ((env.parse j).get "type").eqStr "file_info" = true))) :
    processRequest env s j = logged s j := by
  cases hS : s.State
  · simp [processRequest, logged, hS]
  · have hh : ((env.parse j).get "type").eqStr "handshake" = false := by
      cases e : ((env.parse j).get "type").eqStr "handshake"
      · rfl
      · exact absurd ⟨hS, e⟩ hA
    simp [processRequest, logged, hS, hh]
  · simp [processRequest, logged, hS]
  · simp only [hS, true_and, not_or] at hB
    obtain ⟨h1, h2, h3, h4⟩ := hB
    simp [processRequest, logged, hS, h1, h2, h3, h4]

/-- The dispatch table of `processRequest`: which handler runs, if any. -/
theorem processRequest_cases (env : Env) (s : Server) (j : List Char) :
    (s.State = .Started ∧ ((env.parse j).get "type").eqStr "handshake" = true ∧
      processRequest env s j
        = ProcessHandshake env (logged s j) ((env.parse j).get "protocolVersion").asString) ∨
    (s.State = .ProcessingRequests ∧ ((env.parse j).get "type").eqStr "version" = true ∧
      processRequest env s j = ProcessVersion env (logged s j)) ∨
    (s.State = .ProcessingRequests ∧ ((env.parse j).get "type").eqStr "buildsystem" = true ∧
      processRequest env s j = ProcessBuildsystem env (logged s j)) ∨
    (s.State = .ProcessingRequests ∧ ((env.parse j).get "type").eqStr "target_info" = true ∧
      processRequest env s j
        = ProcessTargetInfo env (logged s j) ((env.parse j).get "target_name").asString
            ((env.parse j).get "config").asString
            (if (env.parse j).isMember "language" then
              some ((env.parse j).get "language").asString else none)) ∨
    (s.State = .ProcessingRequests ∧ ((env.parse j).get "type").eqStr "file_info" = true ∧
      processRequest env s j
        = ProcessFileInfo env (logged s j) ((env.parse j).get "target_name").asString
            ((env.parse j).get "config").asString ((env.parse j).get "file_path").asString) ∨
    (¬ (s.State = .Started ∧ ((env.parse j).get "type").eqStr "handshake" = true) ∧
      ¬ (s.State = .ProcessingRequests ∧
          (((env.parse j).get "type").eqStr "version" = true ∨
           ((env.parse j).get "type").eqStr "buildsystem" = true ∨
           ((env.parse j).get "type").eqStr "target_info" = true ∨
           ((env.parse j).get "type").eqStr "file_info" = true)) ∧
      processRequest env s j = logged s j) := by
  by_cases hA : s.State = .Started ∧ ((env.parse j).get "type").eqStr "handshake" = true
  · exact Or.inl ⟨hA.1, hA.2, processRequest_handshake env s j hA.1 hA.2⟩
  by_cases hS : s.State = .ProcessingRequests
  · by_cases h1 : ((env.parse j).get "type").eqStr "version" = true
    · exact Or.inr (Or.inl ⟨hS, h1, processRequest_version env s j hS h1⟩)
    by_cases h2 : ((env.parse j).get "type").eqStr "buildsystem" = true
    · exact Or.inr (Or.inr (Or.inl ⟨hS, h2, processRequest_buildsystem env s j hS h2⟩))
    by_cases h3 : ((env.parse j).get "type").eqStr "target_info" = true
    · exact Or.inr (Or.inr (Or.inr (Or.inl
        ⟨hS, h3, processRequest_target_info env s j hS h3⟩)))
    by_cases h4 : ((env.parse j).get "type").eqStr "file_info" = true
    · exact Or.inr (Or.inr (Or.inr (Or.inr (Or.inl
        ⟨hS, h4, processRequest_file_info env s j hS h4⟩))))
    have hB : ¬ (s.State = .ProcessingRequests ∧
          (((env.parse j).get "type").eqStr "version" = true ∨
           ((env.parse j).get "type").eqStr "buildsystem" = true ∨
           ((env.parse j).get "type").eqStr "target_info" = true ∨
           ((env.parse j).get "type").eqStr "file_info" = true)) := by
      rintro ⟨-, h | h | h | h⟩
      · exact h1 h
      · exact h2 h
      · exact h3 h
      · exact h4 h
    exact Or.inr (Or.inr (Or.inr (Or.inr (Or.inr ⟨hA, hB, processRequest_dropped env s j hA hB⟩))))
  · have hB : ¬ (s.State = .ProcessingRequests ∧
          (((env.parse j).get "type").eqStr "version" = true ∨
           ((env.parse j).get "type").eqStr "buildsystem" = true ∨
           ((env.parse j).get "type").eqStr "target_info" = true ∨
           ((env.parse j).get "type").eqStr "file_info" = true)) := fun h => hS h.1
    exact Or.inr (Or.inr (Or.inr (Or.inr (Or.inr ⟨hA, hB, processRequest_dropped env s j hA hB⟩))))

theorem WriteResponse_eq (env : Env) (s : Server) (v : Value) :
    WriteResponse env s v
      = { s with Writing := true, written := s.written ++ [payload env v] } := rfl

theorem Wrote.refl (s : Server) : Wrote s s [] := by
  simp [Wrote]

theorem Wrote.trans {s1 s2 s3 : Server} {ws1 ws2 : List (List Char)}
    (h1 : Wrote s1 s2 ws1) (h2 : Wrote s2 s3 ws2) : Wrote s1 s3 (ws1 ++ ws2) := by
  obtain ⟨a1, a2, a3, a4, a5, a6, a7, a8, a9, a10⟩ := h1
  obtain ⟨b1, b2, b3, b4, b5, b6, b7, b8, b9, b10⟩ := h2
  refine ⟨by rw [b1, a1, List.append_assoc], ?_, ?_, by rw [b4, a4], by rw [b5, a5],
    by rw [b6, a6], by rw [b7, a7], by rw [b8, a8], by rw [b9, a9], by rw [b10, a10]⟩
  · intro h
    obtain ⟨e1, e2⟩ := List.append_eq_nil.mp h
    rw [b2 e2, a2 e1]
  · intro h
    by_cases e2 : ws2 = []
    · rw [b2 e2]
      apply a3
      intro e1
      exact h (by rw [e1, e2]; rfl)
    · exact b3 e2

theorem WriteResponse_wrote (env : Env) (s : Server) (v : Value) :
    Wrote s (WriteResponse env s v) [payload env v] := by
  simp [Wrote, WriteResponse_eq]

/-- What `ProcessHandshake` does to the server: at most four writes, the
instance is created, and the state ends at Initializing or ProcessingRequests. -/
theorem ProcessHandshake_wrote (env : Env) (s : Server) (pv : String) :
    Wrote s (ProcessHandshake env s pv) (newWrites s (ProcessHandshake env s pv)) ∧
      (newWrites s (ProcessHandshake env s pv)).length ≤ 4 ∧
      ((ProcessHandshake env s pv).State = .Initializing ∨
        (ProcessHandshake env s pv).State = .ProcessingRequests) ∧
      (ProcessHandshake env s pv).CMakeInstance = some env.newCmake := by
  unfold ProcessHandshake
  simp only [WriteResponse_eq]
  split
  · simp [Wrote, newWrites]
  · split
    · simp [Wrote, newWrites]
    · split
      · simp [Wrote, newWrites]
      · split
        · simp [Wrote, newWrites]
        · simp [Wrote, newWrites]

theorem ProcessVersion_wrote (env : Env) (s : Server) :
    Wrote s (ProcessVersion env s) (newWrites s (ProcessVersion env s)) ∧
      (newWrites s (ProcessVersion env s)).length ≤ 1 ∧
      (ProcessVersion env s).State = s.State ∧
      (ProcessVersion env s).CMakeInstance = s.CMakeInstance := by
  simp [Wrote, newWrites, ProcessVersion, WriteResponse_eq]

theorem ProcessBuildsystem_wrote (env : Env) (s : Server) :
    Wrote s (ProcessBuildsystem env s) (newWrites s (ProcessBuildsystem env s)) ∧
      (newWrites s (ProcessBuildsystem env s)).length ≤ 1 ∧
      (ProcessBuildsystem env s).State = s.State ∧
      (ProcessBuildsystem env s).CMakeInstance = s.CMakeInstance := by
  unfold ProcessBuildsystem
  split
  · simp [Wrote, newWrites]
  · simp [Wrote, newWrites, WriteResponse_eq]

theorem ProcessTargetInfo_wrote (env : Env) (s : Server) (t c : String) (l : Option String) :
    Wrote s (ProcessTargetInfo env s t c l) (newWrites s (ProcessTargetInfo env s t c l)) ∧
      (newWrites s (ProcessTargetInfo env s t c l)).length ≤ 1 ∧
      (ProcessTargetInfo env s t c l).State = s.State ∧
      (ProcessTargetInfo env s t c l).CMakeInstance = s.CMakeInstance := by
  unfold ProcessTargetInfo
  split
  · simp [Wrote, newWrites]
  · split
    · simp [Wrote, newWrites]
    · simp [Wrote, newWrites, WriteResponse_eq]

theorem ProcessFileInfo_wrote (env : Env) (s : Server) (t c f : String) :
    Wrote s (ProcessFileInfo env s t c f) (newWrites s (ProcessFileInfo env s t c f)) ∧
      (newWrites s (ProcessFileInfo env s t c f)).length ≤ 1 ∧
      (ProcessFileInfo env s t c f).State = s.State ∧
      (ProcessFileInfo env s t c f).CMakeInstance = s.CMakeInstance := by
  unfold ProcessFileInfo
  split
  · simp [Wrote, newWrites]
  · split
    · simp [Wrote, newWrites]
    · simp only []
      split
      · simp [Wrote, newWrites]
      · simp [Wrote, newWrites, WriteResponse_eq]

/-- What one `processRequest` call does: the dispatch is logged, at most four
writes are issued by a handshake and at most one otherwise, and the state
moves forward only from Started. -/
theorem processRequest_wrote (env : Env) (s : Server) (j : List Char) :
    Wrote (logged s j) (processRequest env s j) (newWrites s (processRequest env s j)) ∧
      (s.State = .Started →
        (newWrites s (processRequest env s j)).length ≤ 4 ∧
        ((processRequest env s j).State = .Started →
          newWrites s (processRequest env s j) = []) ∧
        ((processRequest env s j).State = .ProcessingRequests →
          (processRequest env s j).CMakeInstance.isSome = true)) ∧
      (s.State ≠ .Started →
        (newWrites s (processRequest env s j)).length ≤ 1 ∧
        (processRequest env s j).State = s.State ∧
        (processRequest env s j).CMakeInstance = s.CMakeInstance) ∧
      (s.State ≠ .Started → s.State ≠ .ProcessingRequests →
        newWrites s (processRequest env s j) = []) := by
  have hl : ∀ s2, newWrites s s2 = newWrites (logged s j) s2 := fun _ => rfl
  rcases processRequest_cases env s j with
    ⟨hS, _, h⟩ | ⟨hS, _, h⟩ | ⟨hS, _, h⟩ | ⟨hS, _, h⟩ | ⟨hS, _, h⟩ | ⟨_, _, h⟩
  · rw [h, hl]
    obtain ⟨w1, w2, w3, w4⟩ := ProcessHandshake_wrote env (logged s j) _
    refine ⟨w1, fun _ => ⟨w2, ?_, ?_⟩, fun hn => absurd hS hn, fun hn => absurd hS hn⟩
    · intro e
      rcases w3 with w3 | w3 <;> rw [w3] at e <;> cases e
    · intro _
      rw [w4]
      rfl
  · rw [h, hl]
    obtain ⟨w1, w2, w3, w4⟩ := ProcessVersion_wrote env (logged s j)
    exact ⟨w1, fun e => (by rw [hS] at e; cases e), fun _ => ⟨w2, w3, w4⟩,
      fun _ hn => absurd hS hn⟩
  · rw [h, hl]
    obtain ⟨w1, w2, w3, w4⟩ := ProcessBuildsystem_wrote env (logged s j)
    exact ⟨w1, fun e => (by rw [hS] at e; cases e), fun _ => ⟨w2, w3, w4⟩,
      fun _ hn => absurd hS hn⟩
  · rw [h, hl]
    obtain ⟨w1, w2, w3, w4⟩ := ProcessTargetInfo_wrote env (logged s j) _ _ _
    exact ⟨w1, fun e => (by rw [hS] at e; cases e), fun _ => ⟨w2, w3, w4⟩,
      fun _ hn => absurd hS hn⟩
  · rw [h, hl]
    obtain ⟨w1, w2, w3, w4⟩ := ProcessFileInfo_wrote env (logged s j) _ _ _
    exact ⟨w1, fun e => (by rw [hS] at e; cases e), fun _ => ⟨w2, w3, w4⟩,
      fun _ hn => absurd hS hn⟩
  · rw [h]
    have e : newWrites s (logged s j) = [] := by simp [newWrites, logged]
    rw [e]
    exact ⟨Wrote.refl _, fun _ => ⟨by simp, fun _ => rfl, fun e2 => by
      simp [logged] at e2; simp_all⟩, fun _ => ⟨by simp, rfl, rfl⟩, fun _ _ => rfl⟩

theorem PopOne_nil (env : Env) (s : Server) (hq : s.mQueue = []) :
    PopOne env s = { s with Writing := false } := by
  simp [PopOne, hq]

theorem PopOne_cons (env : Env) (s : Server) (front : List Char) (rest : List (List Char))
    (hq : s.mQueue = front :: rest) :
    PopOne env s
      = { processRequest env { s with Writing := false } front with
          mQueue := (processRequest env { s with Writing := false } front).mQueue.drop 1 } := by
  simp [PopOne, hq]

/-- The invariant survives `PopOne`, when it holds once the flag is cleared. -/
theorem Inv_PopOne (env : Env) (s : Server) (h : Inv { s with Writing := false }) :
    Inv (PopOne env s) := by
  cases hq : s.mQueue with
  | nil => rw [PopOne_nil env s hq]; exact h
  | cons front rest =>
    rw [PopOne_cons env s front rest hq]
    generalize hs0 : ({ s with Writing := false } : Server) = s0 at h ⊢
    have hq0 : s0.mQueue = front :: rest := by rw [← hs0]; exact hq
    have hw0 : s0.Writing = false := by rw [← hs0]
    obtain ⟨⟨hw, hW0, hW1, -, -, hqq, -, hc, he, hdi⟩, hSt, hNSt, -⟩ :=
      processRequest_wrote env s0 front
    generalize newWrites s0 (processRequest env s0 front) = ws at hw hW0 hW1 hSt hNSt
    generalize processRequest env s0 front = s1 at hw hW0 hW1 hqq hc he hdi hSt hNSt
    simp only [logged] at hw hW0 hW1 hqq hc he hdi
    have hlen : s1.written.length = s0.written.length + ws.length := by
      rw [hw, List.length_append]
    have hi := h.idle_le hw0
    have hcl := h.completed_le
    have hp : pending s1 = pending s0 + ws.length := by
      simp only [pending, hlen, hc]; omega
    have hstart : s1.State = .Started → s0.State = .Started ∧ ws = [] := by
      intro e
      by_cases hS : s0.State = .Started
      · exact ⟨hS, (hSt hS).2.1 e⟩
      · exact absurd ((hNSt hS).2.1 ▸ e) hS
    refine ⟨?_, ?_, ?_, ?_, ?_, ?_, ?_, ?_⟩
    · show s1.completed ≤ s1.written.length
      rw [hc, hlen]; omega
    · show pending { s1 with mQueue := s1.mQueue.drop 1 } ≤ 4
      change pending s1 ≤ 4
      rw [hp]
      by_cases hS : s0.State = .Started
      · have := h.started_idle hS hw0
        have := (hSt hS).1
        omega
      · have := (hNSt hS).1
        omega
    · intro e
      change pending s1 ≤ 3
      replace e : s1.Writing = false := e
      have hn : ws = [] := by
        by_contra hne
        rw [hW1 hne] at e
        cases e
      rw [hp, hn]; simpa using hi
    · intro e
      change pending s1 ≤ 1
      obtain ⟨hS, hn⟩ := hstart e
      have := h.started_idle hS hw0
      rw [hp, hn]; simp; omega
    · intro e _
      change pending s1 = 0
      obtain ⟨hS, hn⟩ := hstart e
      have := h.started_idle hS hw0
      rw [hp, hn]; simpa using this
    · intro d hd
      replace hd : d ∈ s1.dispatched := hd
      rw [hdi] at hd
      rcases List.mem_append.mp hd with hd | hd
      · exact h.dispatch_le d hd
      · rw [List.mem_singleton] at hd
        subst hd
        exact ⟨hi, fun e => h.started_idle e hw0⟩
    · show s1.enqueued = s1.dispatched.map (fun d => d.request) ++ s1.mQueue.drop 1
      rw [he, hdi, hqq, hq0, h.fifo, hq0]
      simp
    · intro e
      replace e : s1.State = .ProcessingRequests := e
      show s1.CMakeInstance.isSome = true
      by_cases hS : s0.State = .Started
      · exact (hSt hS).2.2 e
      · obtain ⟨-, h2, h3⟩ := hNSt hS
        rw [h3]
        exact h.instance_some (h2 ▸ e)

theorem processRequest_setBuf (env : Env) (s : Server) (b j : List Char) :
    processRequest env { s with mDataBuffer := b } j
      = { processRequest env s j with mDataBuffer := b } := by
  have hlog : logged { s with mDataBuffer := b } j = { logged s j with mDataBuffer := b } := rfl
  rcases processRequest_cases env s j with
    ⟨hS, hT, h⟩ | ⟨hS, hT, h⟩ | ⟨hS, hT, h⟩ | ⟨hS, hT, h⟩ | ⟨hS, hT, h⟩ | ⟨hA, hB, h⟩
  · rw [h, processRequest_handshake env { s with mDataBuffer := b } j hS hT, hlog]
    exact ProcessHandshake_setBuf env _ b _
  · rw [h, processRequest_version env { s with mDataBuffer := b } j hS hT, hlog]
    exact ProcessVersion_setBuf env _ b
  · rw [h, processRequest_buildsystem env { s with mDataBuffer := b } j hS hT, hlog]
    exact ProcessBuildsystem_setBuf env _ b
  · rw [h, processRequest_target_info env { s with mDataBuffer := b } j hS hT, hlog]
    exact ProcessTargetInfo_setBuf env _ b _ _ _
  · rw [h, processRequest_file_info env { s with mDataBuffer := b } j hS hT, hlog]
    exact ProcessFileInfo_setBuf env _ b _ _ _
  · rw [h, processRequest_dropped env { s with mDataBuffer := b } j hA hB, hlog]

theorem PopOne_setBuf (env : Env) (s : Server) (b : List Char) :
    PopOne env { s with mDataBuffer := b } = { PopOne env s with mDataBuffer := b } := by
  obtain ⟨st, w, buf, js, q, bd, ci, wr, co, en, di, nc⟩ := s
  cases q with
  | nil => rfl
  | cons front rest =>
    have h := processRequest_setBuf env ⟨st, false, buf, js, front :: rest, bd, ci, wr, co, en, di, nc⟩
      b front
    simp only [PopOne] at h ⊢
    rw [h]

theorem handleLine_setBuf (env : Env) (s : Server) (b line : List Char) :
    handleLine env { s with mDataBuffer := b } line
      = { handleLine env s line with mDataBuffer := b } := by
  obtain ⟨st, w, buf, js, q, bd, ci, wr, co, en, di, nc⟩ := s
  unfold handleLine
  split
  · rfl
  · split
    · cases w
      · exact PopOne_setBuf env
          ⟨st, false, buf, [], q ++ [js ++ line ++ ['\n']], bd, ci, wr, co,
            en ++ [js ++ line ++ ['\n']], di, nc⟩ b
      · rfl
    · rfl

/-! ### Lines of the buffer -/

theorem splitLines_of_find_none : ∀ (b : List Char), find '\n' b = none →
    splitLines b = ([], b)
  | [], _ => rfl
  | c :: cs, h => by
    by_cases hc : c = '\n'
    · simp [find, hc] at h
    · have h2 : find '\n' cs = none := by
        simpa [find, hc] using h
      simp [splitLines, hc, splitLines_of_find_none cs h2]

theorem splitLines_of_find_some : ∀ (b : List Char) (k : Nat), find '\n' b = some k →
    k < b.length ∧
    splitLines b = (b.take k :: (splitLines (b.drop (k + 1))).1, (splitLines (b.drop (k + 1))).2)
  | [], _, h => by simp [find] at h
  | c :: cs, k, h => by
    by_cases hc : c = '\n'
    · have hk : k = 0 := by simpa [find, hc] using h.symm
      subst hk
      simp [splitLines, hc]
    · simp only [find, hc, if_false, Option.map_eq_some'] at h
      obtain ⟨k2, h2, rfl⟩ := h
      obtain ⟨hlt, ih⟩ := splitLines_of_find_some cs k2 h2
      refine ⟨by simp; omega, ?_⟩
      simp [splitLines, hc, ih]

theorem splitLines_line : ∀ (line rest : List Char), '\n' ∉ line →
    splitLines (line ++ '\n' :: rest) = (line :: (splitLines rest).1, (splitLines rest).2)
  | [], rest, _ => by simp [splitLines]
  | c :: cs, rest, h => by
    have hc : c ≠ '\n' := by
      intro e; exact h (by simp [e])
    have hcs : '\n' ∉ cs := by
      intro e; exact h (by simp [e])
    simp [splitLines, hc, splitLines_line cs rest hcs]

theorem splitLines_no_newline : ∀ (b : List Char), '\n' ∉ b → splitLines b = ([], b)
  | [], _ => rfl
  | c :: cs, h => by
    have hc : c ≠ '\n' := by
      intro e; exact h (by simp [e])
    have hcs : '\n' ∉ cs := by
      intro e; exact h (by simp [e])
    simp [splitLines, hc, splitLines_no_newline cs hcs]

/-- The text after the last newline holds no newline. -/
theorem splitLines_rest_no_newline : ∀ (b : List Char), '\n' ∉ (splitLines b).2
  | [] => by simp [splitLines]
  | c :: cs => by
    have ih := splitLines_rest_no_newline cs
    by_cases hc : c = '\n'
    · simpa [splitLines, hc] using ih
    · cases h : (splitLines cs).1 with
      | nil =>
        simp only [splitLines, hc, if_false, h]
        intro e
        rcases List.mem_cons.mp e with e | e
        · exact hc e.symm
        · exact ih e
      | cons l ls =>
        simp only [splitLines, hc, if_false, h]
        exact ih

/-- No complete line holds a newline. -/
theorem splitLines_lines_no_newline : ∀ (b : List Char), ∀ l ∈ (splitLines b).1, '\n' ∉ l
  | [] => by simp [splitLines]
  | c :: cs => by
    have ih := splitLines_lines_no_newline cs
    by_cases hc : c = '\n'
    · intro l hl
      simp only [splitLines, hc, if_true, List.mem_cons] at hl
      rcases hl with rfl | hl
      · simp
      · exact ih l hl
    · cases h : (splitLines cs).1 with
      | nil => simp [splitLines, hc, h]
      | cons l0 ls =>
        intro l hl
        simp only [splitLines, hc, if_false, h, List.mem_cons] at hl
        rw [h] at ih
        rcases hl with rfl | hl
        · intro e
          rcases List.mem_cons.mp e with e | e
          · exact hc e.symm
          · exact ih l0 (by simp) e
        · exact ih l (by simp [hl])

/-- Lines of a text followed by more text: the lines of the first part, then
the lines of what the first part left over followed by the second part. -/
theorem splitLines_append : ∀ (x y : List Char),
    splitLines (x ++ y)
      = ((splitLines x).1 ++ (splitLines ((splitLines x).2 ++ y)).1,
         (splitLines ((splitLines x).2 ++ y)).2)
  | [], y => by simp [splitLines]
  | c :: cs, y => by
    have ih := splitLines_append cs y
    by_cases hc : c = '\n'
    · simp [splitLines, hc, ih]
    · cases h : (splitLines cs).1 with
      | nil =>
        cases h2 : (splitLines ((splitLines cs).2 ++ y)).1 <;>
          simp [splitLines, hc, h, ih, h2]
      | cons l ls =>
        simp [splitLines, hc, h, ih]

/-! ### The loop of `handleData` as a fold over the lines -/

theorem PopOne_frame (env : Env) (s : Server) :
    (PopOne env s).mDataBuffer = s.mDataBuffer ∧ (PopOne env s).mJsonData = s.mJsonData ∧
    (PopOne env s).enqueued = s.enqueued ∧ (PopOne env s).completed = s.completed ∧
    (PopOne env s).m_buildDir = s.m_buildDir := by
  cases hq : s.mQueue with
  | nil => rw [PopOne_nil env s hq]; simp
  | cons front rest =>
    rw [PopOne_cons env s front rest hq]
    obtain ⟨⟨-, -, -, h1, h2, -, h3, h4, h5, -⟩, -⟩ :=
      processRequest_wrote env { s with Writing := false } front
    exact ⟨h1, h2, h5, h4, h3⟩

theorem handleLine_mDataBuffer (env : Env) (s : Server) (line : List Char) :
    (handleLine env s line).mDataBuffer = s.mDataBuffer := by
  obtain ⟨st, w, buf, js, q, bd, ci, wr, co, en, di, nc⟩ := s
  unfold handleLine
  split
  · rfl
  · split
    · cases w
      · exact (PopOne_frame env _).1
      · rfl
    · rfl

theorem foldl_handleLine_setBuf (env : Env) (b : List Char) :
    ∀ (ls : List (List Char)) (s : Server),
      ls.foldl (handleLine env) { s with mDataBuffer := b }
        = { ls.foldl (handleLine env) s with mDataBuffer := b }
  | [], _ => rfl
  | l :: ls, s => by
    simp only [List.foldl_cons]
    rw [handleLine_setBuf, foldl_handleLine_setBuf env b ls]

theorem handleLoop_succ (env : Env) (n k : Nat) (s : Server)
    (h : find '\n' s.mDataBuffer = some k) :
    handleLoop env (n + 1) s
      = handleLoop env n
          (handleLine env { s with mDataBuffer := s.mDataBuffer.drop (k + 1) }
            (s.mDataBuffer.take k)) := by
  rw [handleLoop]
  simp only [h, handleLine]
  split
  · rfl
  · split
    · split <;> rfl
    · rfl

/-- The loop of `handleData`, run with enough fuel, handles every complete line
of the buffer in order and leaves the text after the last newline. -/
theorem handleLoop_eq (env : Env) : ∀ (n : Nat) (s : Server), s.mDataBuffer.length ≤ n →
    handleLoop env n s
      = { (splitLines s.mDataBuffer).1.foldl (handleLine env) s with
          mDataBuffer := (splitLines s.mDataBuffer).2 }
  | 0, s, h => by
    have hb : s.mDataBuffer = [] := List.length_eq_zero.mp (Nat.le_zero.mp h)
    obtain ⟨st, w, buf, js, q, bd, ci, wr, co, en, di, nc⟩ := s
    simp only at hb
    subst hb
    rfl
  | n + 1, s, h => by
    cases hf : find '\n' s.mDataBuffer with
    | none =>
      rw [handleLoop]
      simp only [hf]
      rw [splitLines_of_find_none _ hf]
      obtain ⟨st, w, buf, js, q, bd, ci, wr, co, en, di, nc⟩ := s
      rfl
    | some k =>
      obtain ⟨hk, hsp⟩ := splitLines_of_find_some _ k hf
      rw [handleLoop_succ env n k s hf, handleLoop_eq env n]
      · rw [handleLine_mDataBuffer, hsp]
        simp only [List.foldl_cons]
        rw [handleLine_setBuf, foldl_handleLine_setBuf]
      · rw [handleLine_mDataBuffer]
        simp only [List.length_drop]
        omega

/-- The method `handleData` handles, in order, the complete lines of the old
buffer followed by the chunk, and buffers the text after the last newline. -/
theorem handleData_eq (env : Env) (s : Server) (data : List Char) :
    handleData env s data
      = { (splitLines (s.mDataBuffer ++ data)).1.foldl (handleLine env) s with
          mDataBuffer := (splitLines (s.mDataBuffer ++ data)).2 } := by
  have h := handleLoop_eq env (s.mDataBuffer ++ data).length
    { s with mDataBuffer := s.mDataBuffer ++ data } (Nat.le_refl _)
  rw [foldl_handleLine_setBuf] at h
  exact h

/-- Two chunks in a row are handled like their concatenation. -/
theorem handleData_handleData (env : Env) (s : Server) (a b : List Char) :
    handleData env (handleData env s a) b = handleData env s (a ++ b) := by
  rw [handleData_eq env s (a ++ b), ← List.append_assoc, splitLines_append (s.mDataBuffer ++ a) b,
    handleData_eq env (handleData env s a) b, handleData_eq env s a]
  simp only [List.foldl_append]
  rw [foldl_handleLine_setBuf]

theorem feed_cons (env : Env) (s : Server) (c : List Char) (cs : List (List Char)) :
    feed env s (c :: cs) = feed env (handleData env s c) cs := rfl

/-- Feeding one or more chunks is feeding their concatenation in one chunk. -/
theorem feed_eq_handleData (env : Env) : ∀ (cs : List (List Char)) (s : Server) (c : List Char),
    feed env s (c :: cs) = handleData env s (c :: cs).flatten
  | [], s, c => by simp [feed]
  | d :: ds, s, c => by
    rw [feed_cons, feed_eq_handleData env ds (handleData env s c) d, handleData_handleData]
    simp

/-! ### The invariant over every trace -/

theorem Inv_setBuf {s : Server} (b : List Char) (h : Inv s) :
    Inv { s with mDataBuffer := b } :=
  ⟨h.completed_le, h.pending_le, h.idle_le, h.started_le, h.started_idle, h.dispatch_le,
    h.fifo, h.instance_some⟩

theorem Inv_handleLine (env : Env) (s : Server) (line : List Char) (h : Inv s) :
    Inv (handleLine env s line) := by
  obtain ⟨st, w, buf, js, q, bd, ci, wr, co, en, di, nc⟩ := s
  unfold handleLine
  split
  · exact ⟨h.completed_le, h.pending_le, h.idle_le, h.started_le, h.started_idle,
      h.dispatch_le, h.fifo, h.instance_some⟩
  · split
    · have h2 : Inv ⟨st, w, buf, [], q ++ [js ++ line ++ ['\n']], bd, ci, wr, co,
          en ++ [js ++ line ++ ['\n']], di, nc⟩ :=
        ⟨h.completed_le, h.pending_le, h.idle_le, h.started_le, h.started_idle,
          h.dispatch_le, by have := h.fifo; simp only at this; simp [this], h.instance_some⟩
      cases w
      · exact Inv_PopOne env _ h2
      · exact h2
    · exact ⟨h.completed_le, h.pending_le, h.idle_le, h.started_le, h.started_idle,
        h.dispatch_le, h.fifo, h.instance_some⟩

theorem Inv_foldl_handleLine (env : Env) : ∀ (ls : List (List Char)) (s : Server), Inv s →
    Inv (ls.foldl (handleLine env) s)
  | [], _, h => h
  | l :: ls, s, h => Inv_foldl_handleLine env ls _ (Inv_handleLine env s l h)

theorem Inv_handleData (env : Env) (s : Server) (data : List Char) (h : Inv s) :
    Inv (handleData env s data) := by
  rw [handleData_eq]
  exact Inv_setBuf _ (Inv_foldl_handleLine env _ s h)

theorem Inv_on_stdout_write (env : Env) (s : Server) (h : Inv s)
    (hp : s.completed < s.written.length) : Inv (on_stdout_write env s) := by
  unfold on_stdout_write
  apply Inv_PopOne
  have h1 := h.pending_le
  have h2 := h.started_le
  simp only [pending] at h1 h2
  refine ⟨?_, ?_, ?_, ?_, ?_, h.dispatch_le, h.fifo, h.instance_some⟩
  · show s.completed + 1 ≤ s.written.length
    omega
  · show s.written.length - (s.completed + 1) ≤ 4
    omega
  · intro _
    show s.written.length - (s.completed + 1) ≤ 3
    omega
  · intro e
    have := h2 e
    show s.written.length - (s.completed + 1) ≤ 1
    omega
  · intro e _
    have := h2 e
    show s.written.length - (s.completed + 1) = 0
    omega

theorem Inv_start (env : Env) (buildDir : String) : Inv (start env buildDir) := by
  refine ⟨?_, ?_, ?_, ?_, ?_, ?_, ?_, ?_⟩ <;>
    simp [start, ServeMetadata, WriteResponse_eq, new, pending]

theorem Inv_step (env : Env) (s s2 : Server) (e : Event) (h : Inv s)
    (hs : step env s e = some s2) : Inv s2 := by
  cases e with
  | chunk data =>
    simp only [step, Option.some.injEq] at hs
    subst hs
    exact Inv_handleData env s data h
  | writeDone =>
    simp only [step] at hs
    split at hs
    · simp only [Option.some.injEq] at hs
      subst hs
      exact Inv_on_stdout_write env s h (by assumption)
    · cases hs

theorem Inv_run (env : Env) : ∀ (es : List Event) (s s2 : Server), Inv s →
    run env s es = some s2 → Inv s2
  | [], s, s2, h, hr => by
    simp only [run, Option.some.injEq] at hr
    subst hr
    exact h
  | e :: es, s, s2, h, hr => by
    simp only [run] at hr
    cases hs : step env s e with
    | none => rw [hs] at hr; cases hr
    | some s1 =>
      rw [hs] at hr
      exact Inv_run env es s1 s2 (Inv_step env s s1 e h hs) hr

/-! ### The decoder seen on its own -/

theorem handleLine_decode (env : Env) (s : Server) (line : List Char) :
    ((handleLine env s line).mJsonData, (handleLine env s line).enqueued)
      = decodeLine (s.mJsonData, s.enqueued) line := by
  obtain ⟨st, w, buf, js, q, bd, ci, wr, co, en, di, nc⟩ := s
  unfold handleLine decodeLine
  split
  · rfl
  · split
    · cases w
      · obtain ⟨-, h1, h2, -, -⟩ := PopOne_frame env
          ⟨st, false, buf, [], q ++ [js ++ line ++ ['\n']], bd, ci, wr, co,
            en ++ [js ++ line ++ ['\n']], di, nc⟩
        simp only [Bool.not_false, if_true]
        rw [h1, h2]
      · rfl
    · rfl

theorem foldl_handleLine_decode (env : Env) : ∀ (ls : List (List Char)) (s : Server),
    ((ls.foldl (handleLine env) s).mJsonData, (ls.foldl (handleLine env) s).enqueued)
      = ls.foldl decodeLine (s.mJsonData, s.enqueued)
  | [], _ => rfl
  | l :: ls, s => by
    simp only [List.foldl_cons]
    rw [foldl_handleLine_decode env ls, handleLine_decode]

/-- The decoder part of `handleData`: buffer, accumulator and enqueued messages
after a chunk depend only on their old values and on the chunk. -/
theorem handleData_decode (env : Env) (s : Server) (data : List Char) :
    (handleData env s data).mDataBuffer = (splitLines (s.mDataBuffer ++ data)).2 ∧
    ((handleData env s data).mJsonData, (handleData env s data).enqueued)
      = (splitLines (s.mDataBuffer ++ data)).1.foldl decodeLine (s.mJsonData, s.enqueued) := by
  rw [handleData_eq]
  exact ⟨rfl, foldl_handleLine_decode env _ s⟩

theorem splitLines_unlines : ∀ (ls : List (List Char)) (rest : List Char),
    (∀ l ∈ ls, '\n' ∉ l) →
    splitLines (unlines ls ++ rest) = (ls ++ (splitLines rest).1, (splitLines rest).2)
  | [], rest, _ => by simp [unlines]
  | l :: ls, rest, h => by
    have hl : '\n' ∉ l := h l (by simp)
    have ih := splitLines_unlines ls rest (fun x hx => h x (by simp [hx]))
    have e : unlines (l :: ls) ++ rest = l ++ '\n' :: (unlines ls ++ rest) := by
      simp [unlines]
    rw [e, splitLines_line _ _ hl, ih]
    rfl

theorem foldl_decodeLine_body : ∀ (ls : List (List Char)) (acc : List Char)
    (out : List (List Char)), (∀ l ∈ ls, l ≠ beginMagic ∧ l ≠ endMagic) →
    ls.foldl decodeLine (acc, out) = (acc ++ unlines ls, out)
  | [], acc, out, _ => by simp [unlines]
  | l :: ls, acc, out, h => by
    obtain ⟨h1, h2⟩ := h l (by simp)
    have ih := foldl_decodeLine_body ls (acc ++ l ++ ['\n']) out
      (fun x hx => h x (by simp [hx]))
    simp only [List.foldl_cons, decodeLine, h1, h2, if_false]
    rw [ih]
    simp [unlines]

theorem newline_not_mem_beginMagic : '\n' ∉ beginMagic := by decide

theorem newline_not_mem_endMagic : '\n' ∉ endMagic := by decide

/-! ## The claims -/

/-- C1 (framing round trip, as the code has it).  For every value `v` whose
serialized text is one line `body` followed by a newline (`body` itself not a
sentinel), and every way of cutting the bytes written by `WriteResponse` for
`v` into one or more chunks, feeding the chunks to a fresh decoder enqueues
exactly one message; that message is the serialized text of `v` followed by
the end sentinel line, not the serialized text alone.  Accumulator and buffer
are empty afterwards. -/
theorem round_trip_keeps_end_sentinel (env : Env) (s : Server) (v : Value)
    (body : List Char) (chunks : List (List Char))
    (hbuf : s.mDataBuffer = []) (hacc : s.mJsonData = []) (henq : s.enqueued = [])
    (hw : env.write v = body ++ ['\n']) (hnl : '\n' ∉ body)
    (hb : body ≠ beginMagic) (he : body ≠ endMagic)
    (hne : chunks ≠ []) (hflat : (WriteResponse env new v).written = [chunks.flatten]) :
    (feed env s chunks).enqueued = [env.write v ++ (endMagic ++ ['\n'])] ∧
    (feed env s chunks).mJsonData = [] ∧ (feed env s chunks).mDataBuffer = [] := by
  obtain ⟨c, cs, rfl⟩ := List.exists_cons_of_ne_nil hne
  have hdata : (c :: cs).flatten = unlines [[], beginMagic, body, endMagic] ++ [] := by
    have h := hflat
    simp only [WriteResponse_eq, new, List.nil_append, List.cons.injEq, and_true] at h
    rw [← h, payload, hw]
    simp [unlines]
  have hlines : ∀ l ∈ [[], beginMagic, body, endMagic], '\n' ∉ l := by
    intro l hl
    simp only [List.mem_cons, List.mem_singleton, List.not_mem_nil, or_false] at hl
    rcases hl with rfl | rfl | rfl | rfl
    · simp
    · exact newline_not_mem_beginMagic
    · exact hnl
    · exact newline_not_mem_endMagic
  obtain ⟨h1, h2⟩ := handleData_decode env s (c :: cs).flatten
  rw [feed_eq_handleData]
  rw [hbuf, List.nil_append, hdata, splitLines_unlines _ _ hlines] at h1 h2
  have e0 : ([] : List Char) ≠ beginMagic := by decide
  have e1 : ([] : List Char) ≠ endMagic := by decide
  have e2 : endMagic ≠ beginMagic := by decide
  simp only [splitLines, List.append_nil, List.foldl_cons, List.foldl_nil, hacc, henq,
    decodeLine, e0, e1, e2, hb, he, if_false, if_true, List.nil_append, Prod.mk.injEq] at h1 h2
  rw [hdata, List.append_nil]
  refine ⟨?_, h2.1, h1⟩
  rw [h2.2, hw]
  simp

/-- C2 (begin and end sentinel lines around a body, as the code has it).  For
every list of lines, none holding a newline and none equal to a sentinel,
feeding a fresh decoder the begin sentinel line, the lines and the end
sentinel line (each newline-terminated, cut into one or more chunks in any
way) enqueues exactly one message: the lines, each with its newline, followed
by the end sentinel line with its newline.  The begin sentinel line is not part
of the message, the end sentinel line is; the accumulator is empty
afterwards. -/
theorem frame_body_keeps_end_sentinel (env : Env) (s : Server) (ls : List (List Char))
    (chunks : List (List Char))
    (hbuf : s.mDataBuffer = []) (hacc : s.mJsonData = []) (henq : s.enqueued = [])
    (hnl : ∀ l ∈ ls, '\n' ∉ l) (hns : ∀ l ∈ ls, l ≠ beginMagic ∧ l ≠ endMagic)
    (hne : chunks ≠ []) (hflat : chunks.flatten = unlines (beginMagic :: ls ++ [endMagic])) :
    (feed env s chunks).enqueued = [unlines ls ++ (endMagic ++ ['\n'])] ∧
    (feed env s chunks).mJsonData = [] := by
  obtain ⟨c, cs, rfl⟩ := List.exists_cons_of_ne_nil hne
  have hlines : ∀ l ∈ beginMagic :: ls ++ [endMagic], '\n' ∉ l := by
    intro l hl
    simp only [List.cons_append, List.mem_cons, List.mem_append, List.mem_singleton,
      List.not_mem_nil, or_false] at hl
    rcases hl with rfl | hl | rfl
    · exact newline_not_mem_beginMagic
    · exact hnl l hl
    · exact newline_not_mem_endMagic
  obtain ⟨-, h2⟩ := handleData_decode env s (c :: cs).flatten
  rw [feed_eq_handleData]
  have hdata : (c :: cs).flatten = unlines (beginMagic :: ls ++ [endMagic]) ++ [] := by
    rw [hflat, List.append_nil]
  rw [hbuf, List.nil_append, hdata, splitLines_unlines _ _ hlines] at h2
  have e2 : endMagic ≠ beginMagic := by decide
  simp only [splitLines, List.append_nil, List.cons_append, List.foldl_cons, List.foldl_append,
    List.foldl_nil, hacc, henq] at h2
  rw [show decodeLine ([], []) beginMagic = ([], []) by simp [decodeLine],
    foldl_decodeLine_body ls [] [] hns] at h2
  simp only [decodeLine, e2, if_false, if_true, List.nil_append, Prod.mk.injEq] at h2
  rw [hdata]
  simp only [List.append_nil, List.cons_append]
  exact ⟨by rw [h2.2]; simp, h2.1⟩

/-- C1 at a concrete input: the response `progress idle` of the fake writer,
cut into three chunks (the second cut falls inside the end sentinel line). -/
theorem round_trip_keeps_end_sentinel_witness :
    Fake.env.write (progress "idle") = "\x7b\"progress\":\"idle\"\x7d".toList ++ ['\n'] ∧
    (feed Fake.env new
        ["\n[== CMake Meta".toList, "Magic ==[\n\x7b\"progress\":\"idle\"\x7d\n]== CM".toList,
          "ake MetaMagic ==]\n".toList]).enqueued
      = [Fake.env.write (progress "idle") ++ (endMagic ++ ['\n'])] ∧
    (feed Fake.env new
        ["\n[== CMake Meta".toList, "Magic ==[\n\x7b\"progress\":\"idle\"\x7d\n]== CM".toList,
          "ake MetaMagic ==]\n".toList]).mJsonData = [] ∧
    (feed Fake.env new
        ["\n[== CMake Meta".toList, "Magic ==[\n\x7b\"progress\":\"idle\"\x7d\n]== CM".toList,
          "ake MetaMagic ==]\n".toList]).mDataBuffer = [] :=
  ⟨by decide,
    round_trip_keeps_end_sentinel Fake.env new (progress "idle")
      "\x7b\"progress\":\"idle\"\x7d".toList _ rfl rfl rfl (by decide) (by decide) (by decide)
      (by decide) (by decide) (by decide)⟩

/-- C2 at a concrete input: a frame with the two body lines `a` and `b`, fed as
one chunk; the message enqueued is the two lines and the end sentinel line. -/
theorem frame_body_keeps_end_sentinel_witness :
    (feed Fake.env new ["[== CMake MetaMagic ==[\na\nb\n]== CMake MetaMagic ==]\n".toList]).enqueued
      = [unlines ["a".toList, "b".toList] ++ (endMagic ++ ['\n'])] ∧
    (feed Fake.env new
      ["[== CMake MetaMagic ==[\na\nb\n]== CMake MetaMagic ==]\n".toList]).mJsonData = [] :=
  frame_body_keeps_end_sentinel Fake.env new ["a".toList, "b".toList] _ rfl rfl rfl
    (by decide) (by decide) (by decide) (by decide)

theorem Reachable_inv {env : Env} {s : Server} (h : Reachable env s) : Inv s := by
  obtain ⟨buildDir, es, hr⟩ := h
  exact Inv_run env es _ s (Inv_start env buildDir) hr

/-- C3, as stated, fails: a handshake and a version request arrive in one
chunk while the first write is pending; the first completion dispatches the
handshake (no write pending), which issues four writes; the second completion
dispatches the version request while three writes of the handshake handler
are still pending. -/
theorem dispatch_before_earlier_writes_complete :
    (run Fake.env (start Fake.env "/build")
        [.chunk (Fake.handshake ++ Fake.version), .writeDone, .writeDone]).map
      (fun s => (s.dispatched, s.written.length, s.completed))
      = some ([⟨Fake.handshakeBody, 0, .Started⟩,
               ⟨Fake.versionBody, 3, .ProcessingRequests⟩], 6, 2) := by
  decide

/-- C3, amended.  In every state reachable by chunk arrivals and write
completions, every `processRequest` call was made with at most three writes
pending completion, and with none pending when the session state was
Started. -/
theorem dispatch_pending_bound (env : Env) (s : Server) (h : Reachable env s) :
    ∀ d ∈ s.dispatched, d.pending ≤ 3 ∧ (d.state = .Started → d.pending = 0) :=
  (Reachable_inv h).dispatch_le

/-- C3 amended, at the trace of the counterexample. -/
theorem dispatch_pending_bound_witness :
    Reachable Fake.env
      (on_stdout_write Fake.env (on_stdout_write Fake.env
        (handleData Fake.env (start Fake.env "/build") (Fake.handshake ++ Fake.version)))) ∧
    ∀ d ∈ (on_stdout_write Fake.env (on_stdout_write Fake.env
        (handleData Fake.env (start Fake.env "/build")
          (Fake.handshake ++ Fake.version)))).dispatched,
      d.pending ≤ 3 ∧ (d.state = .Started → d.pending = 0) :=
  ⟨⟨"/build", [.chunk (Fake.handshake ++ Fake.version), .writeDone, .writeDone], by
      simp only [run, step, Option.some_bind]
      rw [if_pos (by decide), Option.some_bind, if_pos (by decide), Option.some_bind]⟩,
    dispatch_pending_bound Fake.env _
      ⟨"/build", [.chunk (Fake.handshake ++ Fake.version), .writeDone, .writeDone], by
        simp only [run, step, Option.some_bind]
        rw [if_pos (by decide), Option.some_bind, if_pos (by decide), Option.some_bind]⟩⟩

/-- C4, as stated, fails: after the handshake request is dispatched, four
writes have been started and none of them has completed. -/
theorem four_writes_pending_after_handshake :
    (run Fake.env (start Fake.env "/build")
        [.chunk Fake.handshake, .writeDone]).map
      (fun s => (s.written.length, s.completed, pending s))
      = some (5, 1, 4) := by
  decide

/-- C4, amended.  In every state reachable from `ServeMetadata` by chunk
arrivals and write completions, the number of writes started minus the number
of writes completed never exceeds 4, and never exceeds 1 while the session
state is Started. -/
theorem pending_writes_bound (env : Env) (s : Server) (h : Reachable env s) :
    s.written.length - s.completed ≤ 4 ∧
    (s.State = .Started → s.written.length - s.completed ≤ 1) :=
  ⟨(Reachable_inv h).pending_le, (Reachable_inv h).started_le⟩

/-- C4 amended, at the state after the handshake has been dispatched. -/
theorem pending_writes_bound_witness :
    Reachable Fake.env
      (on_stdout_write Fake.env (handleData Fake.env (start Fake.env "/build") Fake.handshake)) ∧
    (on_stdout_write Fake.env
        (handleData Fake.env (start Fake.env "/build") Fake.handshake)).written.length
      - (on_stdout_write Fake.env
        (handleData Fake.env (start Fake.env "/build") Fake.handshake)).completed ≤ 4 :=
  ⟨⟨"/build", [.chunk Fake.handshake, .writeDone], by
      simp only [run, step, Option.some_bind]
      rw [if_pos (by decide), Option.some_bind]⟩,
    (pending_writes_bound Fake.env _
      ⟨"/build", [.chunk Fake.handshake, .writeDone], by
        simp only [run, step, Option.some_bind]
        rw [if_pos (by decide), Option.some_bind]⟩).1⟩

/-- C5 (arrival-order preservation).  In every state reachable by chunk
arrivals and write completions, the request bodies passed to `processRequest`,
in call order, followed by the bodies still in the queue, are exactly the
bodies the decoder enqueued, in enqueue order; so the dispatched bodies are an
initial segment of the enqueued ones. -/
theorem dispatch_order (env : Env) (s : Server) (h : Reachable env s) :
    s.dispatched.map (fun d => d.request) <+: s.enqueued ∧
    s.enqueued = s.dispatched.map (fun d => d.request) ++ s.mQueue :=
  ⟨⟨s.mQueue, (Reachable_inv h).fifo.symm⟩, (Reachable_inv h).fifo⟩

/-- C5 at a concrete trace: a version and a handshake request arrive while the
first write is pending, then that write completes. -/
theorem dispatch_order_witness :
    Reachable Fake.env
      (on_stdout_write Fake.env
        (handleData Fake.env (start Fake.env "/build") (Fake.version ++ Fake.handshake))) ∧
    (on_stdout_write Fake.env
        (handleData Fake.env (start Fake.env "/build")
          (Fake.version ++ Fake.handshake))).enqueued
      = (on_stdout_write Fake.env
          (handleData Fake.env (start Fake.env "/build")
            (Fake.version ++ Fake.handshake))).dispatched.map (fun d => d.request)
        ++ (on_stdout_write Fake.env
          (handleData Fake.env (start Fake.env "/build")
            (Fake.version ++ Fake.handshake))).mQueue :=
  ⟨⟨"/build", [.chunk (Fake.version ++ Fake.handshake), .writeDone], by
      simp only [run, step, Option.some_bind]
      rw [if_pos (by decide), Option.some_bind]⟩,
    (dispatch_order Fake.env _
      ⟨"/build", [.chunk (Fake.version ++ Fake.handshake), .writeDone], by
        simp only [run, step, Option.some_bind]
        rw [if_pos (by decide), Option.some_bind]⟩).2⟩

/-- C6 on the code: a version request (not legal in Started) and a handshake
request arrive in one chunk while the first write is pending, then that write
completes.  `PopOne` dispatches the version request, which is dropped without
a write, so no further completion will come: no write is pending, the flag is
clear, and the handshake request is still in the queue, never dispatched. -/
theorem queue_stalls_after_dropped_request :
    (run Fake.env (start Fake.env "/build")
        [.chunk (Fake.version ++ Fake.handshake), .writeDone]).map
      (fun s => (pending s, s.Writing, s.mQueue))
      = some (0, false, [Fake.handshakeBody]) ∧
    (run Fake.env (start Fake.env "/build")
        [.chunk (Fake.version ++ Fake.handshake), .writeDone]).map
      (fun s => (s.enqueued, s.dispatched.map (fun d => d.request)))
      = some ([Fake.versionBody, Fake.handshakeBody], [Fake.versionBody]) := by
  decide

/-- C7, as stated, fails: the handshake document cut before its closing brace
is not valid JSON, but the reader leaves the type member it has read and
`processRequest` never looks at the reader's verdict; in Started the handshake
runs: four writes are issued and the state becomes ProcessingRequests. -/
theorem invalid_json_runs_handshake :
    Fake.envKeeping.parseOk Fake.cutHandshakeBody = false ∧
    (on_stdout_write Fake.envKeeping (start Fake.envKeeping "/build")).State = .Started ∧
    (on_stdout_write Fake.envKeeping (start Fake.envKeeping "/build")).written.length = 1 ∧
    raises Fake.envKeeping (on_stdout_write Fake.envKeeping (start Fake.envKeeping "/build"))
      Fake.cutHandshakeBody = false ∧
    (processRequest Fake.envKeeping
      (on_stdout_write Fake.envKeeping (start Fake.envKeeping "/build"))
      Fake.cutHandshakeBody).written.length = 5 ∧
    (processRequest Fake.envKeeping
      (on_stdout_write Fake.envKeeping (start Fake.envKeeping "/build"))
      Fake.cutHandshakeBody).State = .ProcessingRequests := by
  decide

/-- C7, amended (state gating on the value the reader leaves).  For every
session state and every request body on which JsonCpp does not raise (in
Started and ProcessingRequests the value the reader leaves is null or an
object) and whose `type` member in that value is not legal in that state
(anything but handshake in Started, anything in Uninitialized or Initializing,
anything but version, buildsystem, target_info, file_info in
ProcessingRequests; a value without a string `type` member, such as the null
value, is legal nowhere), the `processRequest` call completes, issues no write
and leaves the session state unchanged; the Writing flag, the instance and the
queue are unchanged as well.  Whether the body is valid JSON plays no part. -/
theorem state_gating (env : Env) (s : Server) (json : List Char)
    (hr : raises env s json = false)
    (h : legal s.State ((env.parse json).get "type") = false) :
    processRequestOutcome env s json = some (processRequest env s json) ∧
    (processRequest env s json).written = s.written ∧
    (processRequest env s json).State = s.State ∧
    (processRequest env s json).Writing = s.Writing ∧
    (processRequest env s json).CMakeInstance = s.CMakeInstance ∧
    (processRequest env s json).mQueue = s.mQueue := by
  have hA : ¬ (s.State = .Started ∧ ((env.parse json).get "type").eqStr "handshake" = true) := by
    rintro ⟨hS, hT⟩
    rw [hS] at h
    simp [legal, hT] at h
  have hB : ¬ (s.State = .ProcessingRequests ∧
          (((env.parse json).get "type").eqStr "version" = true ∨
           ((env.parse json).get "type").eqStr "buildsystem" = true ∨
           ((env.parse json).get "type").eqStr "target_info" = true ∨
           ((env.parse json).get "type").eqStr "file_info" = true)) := by
    rintro ⟨hS, hT⟩
    rw [hS] at h
    simp only [legal, Bool.or_eq_false_iff] at h
    obtain ⟨⟨⟨h1, h2⟩, h3⟩, h4⟩ := h
    rcases hT with hT | hT | hT | hT
    · rw [h1] at hT; cases hT
    · rw [h2] at hT; cases hT
    · rw [h3] at hT; cases hT
    · rw [h4] at hT; cases hT
  refine ⟨by simp [processRequestOutcome, hr], ?_⟩
  rw [processRequest_dropped env s json hA hB]
  exact ⟨rfl, rfl, rfl, rfl, rfl⟩

/-- C7 amended, at a concrete input: a version request while the state is
Started. -/
theorem state_gating_witness :
    raises Fake.env (start Fake.env "/build") Fake.versionBody = false ∧
    legal (start Fake.env "/build").State ((Fake.env.parse Fake.versionBody).get "type") = false ∧
    processRequestOutcome Fake.env (start Fake.env "/build") Fake.versionBody
      = some (processRequest Fake.env (start Fake.env "/build") Fake.versionBody) ∧
    (processRequest Fake.env (start Fake.env "/build") Fake.versionBody).written
      = (start Fake.env "/build").written ∧
    (processRequest Fake.env (start Fake.env "/build") Fake.versionBody).State
      = (start Fake.env "/build").State :=
  ⟨by decide, by decide,
    (state_gating Fake.env (start Fake.env "/build") Fake.versionBody (by decide) (by decide)).1,
    (state_gating Fake.env (start Fake.env "/build") Fake.versionBody (by decide)
      (by decide)).2.1,
    (state_gating Fake.env (start Fake.env "/build") Fake.versionBody (by decide)
      (by decide)).2.2.1⟩

/-! ### Monotonicity of the session state -/

theorem rank_processRequest (env : Env) (s : Server) (j : List Char) :
    rank s.State ≤ rank (processRequest env s j).State := by
  rcases processRequest_cases env s j with
    ⟨hS, -, h⟩ | ⟨-, -, h⟩ | ⟨-, -, h⟩ | ⟨-, -, h⟩ | ⟨-, -, h⟩ | ⟨-, -, h⟩
  · rw [h, hS]
    rcases (ProcessHandshake_wrote env (logged s j) _).2.2.1 with e | e <;> rw [e] <;> decide
  · rw [h, (ProcessVersion_wrote env _).2.2.1]
    exact Nat.le_refl _
  · rw [h, (ProcessBuildsystem_wrote env _).2.2.1]
    exact Nat.le_refl _
  · rw [h, (ProcessTargetInfo_wrote env _ _ _ _).2.2.1]
    exact Nat.le_refl _
  · rw [h, (ProcessFileInfo_wrote env _ _ _ _).2.2.1]
    exact Nat.le_refl _
  · rw [h]
    exact Nat.le_refl _

theorem rank_PopOne (env : Env) (s : Server) :
    rank s.State ≤ rank (PopOne env s).State := by
  cases hq : s.mQueue with
  | nil => rw [PopOne_nil env s hq]
  | cons front rest =>
    rw [PopOne_cons env s front rest hq]
    exact rank_processRequest env { s with Writing := false } front

theorem rank_handleLine (env : Env) (s : Server) (line : List Char) :
    rank s.State ≤ rank (handleLine env s line).State := by
  obtain ⟨st, w, buf, js, q, bd, ci, wr, co, en, di, nc⟩ := s
  unfold handleLine
  split
  · exact Nat.le_refl _
  · split
    · cases w
      · exact rank_PopOne env
          ⟨st, false, buf, [], q ++ [js ++ line ++ ['\n']], bd, ci, wr, co,
            en ++ [js ++ line ++ ['\n']], di, nc⟩
      · exact Nat.le_refl _
    · exact Nat.le_refl _

theorem rank_foldl_handleLine (env : Env) : ∀ (ls : List (List Char)) (s : Server),
    rank s.State ≤ rank (ls.foldl (handleLine env) s).State
  | [], _ => Nat.le_refl _
  | l :: ls, s =>
    Nat.le_trans (rank_handleLine env s l) (rank_foldl_handleLine env ls (handleLine env s l))

theorem rank_handleData (env : Env) (s : Server) (data : List Char) :
    rank s.State ≤ rank (handleData env s data).State := by
  rw [handleData_eq]
  exact rank_foldl_handleLine env _ s

theorem rank_on_stdout_write (env : Env) (s : Server) :
    rank s.State ≤ rank (on_stdout_write env s).State :=
  rank_PopOne env { s with completed := s.completed + 1 }

theorem rank_run (env : Env) : ∀ (es : List Event) (s : Server),
    match run env s es with
    | some s2 => rank s.State ≤ rank s2.State
    | none => True
  | [], s => by simp [run]
  | e :: es, s => by
    cases e with
    | chunk data =>
      have ih := rank_run env es (handleData env s data)
      simp only [run, step, Option.some_bind]
      split
      · rename_i s2 h2
        rw [h2] at ih
        exact Nat.le_trans (rank_handleData env s data) ih
      · trivial
    | writeDone =>
      have ih := rank_run env es (on_stdout_write env s)
      simp only [run, step]
      by_cases hp : s.completed < s.written.length
      · rw [if_pos hp, Option.some_bind]
        split
        · rename_i s2 h2
          rw [h2] at ih
          exact Nat.le_trans (rank_on_stdout_write env s) ih
        · trivial
      · rw [if_neg hp]
        simp

/-- C8 (the session state is monotonic).  With the states ordered
Uninitialized < Started < Initializing < ProcessingRequests, none of the
operations moves any server to an earlier state: not `ServeMetadata` on the
newly constructed server, not a request of any type handed to
`processRequest`, not a chunk arrival, not a write completion; and so the
state at the end of every sequence of event loop turns is at or after the state
at its start. -/
theorem state_monotonic (env : Env) (s : Server) :
    (∀ buildDir, rank new.State ≤ rank (ServeMetadata env new buildDir).State) ∧
    (∀ json, rank s.State ≤ rank (processRequest env s json).State) ∧
    (∀ data, rank s.State ≤ rank (handleData env s data).State) ∧
    rank s.State ≤ rank (on_stdout_write env s).State ∧
    (∀ es, match run env s es with
      | some s2 => rank s.State ≤ rank s2.State
      | none => True) :=
  ⟨fun _ => Nat.zero_le _, rank_processRequest env s, rank_handleData env s,
    rank_on_stdout_write env s, fun es => rank_run env es s⟩

/-! ### The handshake -/

/-- The idle notification that ends a successful handshake. -/
theorem idle_object (a b c : String) :
    (((objectValue.set "progress" (.string "idle")).set "source_dir" (.string a)).set
        "binary_dir" (.string b)).set "project_name" (.string c)
      = .object [("binary_dir", .string b), ("progress", .string "idle"),
          ("project_name", .string c), ("source_dir", .string a)] := by
  have h1 : ("progress" : String) ≠ "source_dir" := by decide
  have h2 : ¬ ("source_dir" : String).toList < ("progress" : String).toList := by decide
  have h3 : ("progress" : String) ≠ "binary_dir" := by decide
  have h4 : ("binary_dir" : String).toList < ("progress" : String).toList := by decide
  have h5 : ("binary_dir" : String) ≠ "project_name" := by decide
  have h6 : ¬ ("project_name" : String).toList < ("binary_dir" : String).toList := by decide
  have h7 : ("progress" : String) ≠ "project_name" := by decide
  have h8 : ¬ ("project_name" : String).toList < ("progress" : String).toList := by decide
  have h9 : ("source_dir" : String) ≠ "project_name" := by decide
  have h10 : ("project_name" : String).toList < ("source_dir" : String).toList := by decide
  simp only [objectValue, Value.set, Json.insert, h1, h2, h3, h4, h5, h6, h7, h8, h9, h10,
    if_true, if_false]

theorem ProcessHandshake_success (env : Env) (s : Server) (pv : String) (g h : String)
    (hcache : env.newCmake.LoadCache s.m_buildDir = true)
    (hgen : env.newCmake.GetInitializedCacheValue "CMAKE_GENERATOR" = some g)
    (hhome : env.newCmake.GetInitializedCacheValue "CMAKE_HOME_DIRECTORY" = some h)
    (hcompute : env.newCmake.Compute = true) :
    ProcessHandshake env s pv
      = { s with
          State := .ProcessingRequests, Writing := true, CMakeInstance := some env.newCmake,
          created := s.created + 1,
          written := s.written ++
            [payload env (progress "initialized"), payload env (progress "configured"),
              payload env (progress "computed"),
              payload env (.object [("binary_dir", .string env.newCmake.GetBinaryDirectory),
                ("progress", .string "idle"),
                ("project_name",
                  .string (env.newCmake.GetLocalGenerators.getD 0 default).GetProjectName),
                ("source_dir", .string env.newCmake.GetSourceDirectory)])] } := by
  unfold ProcessHandshake
  simp only [hcache, hgen, hhome, hcompute, WriteResponse_eq, idle_object]
  simp [progress, objectValue, Value.set, Json.insert]

theorem setBuf_self (t : Server) (b : List Char) (h : t.mDataBuffer = b) :
    { t with mDataBuffer := b } = t := by
  obtain ⟨st, w, buf, js, q, bd, ci, wr, co, en, di, nc⟩ := t
  simp only at h
  subst h
  rfl

theorem splitLines_frame (doc : List Char) (hdoc : '\n' ∉ doc) :
    splitLines (unlines [beginMagic, doc, endMagic]) = ([beginMagic, doc, endMagic], []) := by
  have hlines : ∀ l ∈ [beginMagic, doc, endMagic], '\n' ∉ l := by
    intro l hl
    simp only [List.mem_cons, List.mem_singleton, List.not_mem_nil, or_false] at hl
    rcases hl with rfl | rfl | rfl
    · exact newline_not_mem_beginMagic
    · exact hdoc
    · exact newline_not_mem_endMagic
  have hsp := splitLines_unlines [beginMagic, doc, endMagic] [] hlines
  rw [List.append_nil] at hsp
  rw [hsp]
  rfl

theorem handleData_frame_busy (env : Env) (s : Server) (doc : List Char)
    (hbuf : s.mDataBuffer = []) (hw : s.Writing = true)
    (hdoc : '\n' ∉ doc) (hb : doc ≠ beginMagic) (he : doc ≠ endMagic) :
    handleData env s (unlines [beginMagic, doc, endMagic])
      = { s with
          mJsonData := [],
          mQueue := s.mQueue ++ [doc ++ '\n' :: endMagic ++ ['\n']],
          enqueued := s.enqueued ++ [doc ++ '\n' :: endMagic ++ ['\n']] } := by
  have e2 : endMagic ≠ beginMagic := by decide
  obtain ⟨st, w, buf, js, q, bd, ci, wr, co, en, di, nc⟩ := s
  simp only at hbuf hw
  subst hbuf hw
  rw [handleData_eq]
  simp only [List.nil_append]
  rw [splitLines_frame doc hdoc]
  simp only [List.foldl_cons, List.foldl_nil,
    handleLine, hb, he, e2, if_true, if_false, Bool.not_true, Bool.false_eq_true,
    List.append_assoc, List.singleton_append, List.nil_append]

theorem handleData_frame_idle (env : Env) (s : Server) (doc : List Char)
    (hbuf : s.mDataBuffer = []) (hw : s.Writing = false)
    (hdoc : '\n' ∉ doc) (hb : doc ≠ beginMagic) (he : doc ≠ endMagic) :
    handleData env s (unlines [beginMagic, doc, endMagic])
      = PopOne env { s with
          mJsonData := [],
          mQueue := s.mQueue ++ [doc ++ '\n' :: endMagic ++ ['\n']],
          enqueued := s.enqueued ++ [doc ++ '\n' :: endMagic ++ ['\n']] } := by
  have e2 : endMagic ≠ beginMagic := by decide
  obtain ⟨st, w, buf, js, q, bd, ci, wr, co, en, di, nc⟩ := s
  simp only at hbuf hw
  subst hbuf hw
  rw [handleData_eq]
  simp only [List.nil_append]
  rw [splitLines_frame doc hdoc]
  simp only [List.foldl_cons, List.foldl_nil,
    handleLine, hb, he, e2, if_true, if_false, Bool.not_false,
    List.append_assoc, List.singleton_append, List.nil_append]
  have hf := (PopOne_frame env ⟨st, false, [], [], q ++ [doc ++ '\n' :: (endMagic ++ ['\n'])],
    bd, ci, wr, co, en ++ [doc ++ '\n' :: (endMagic ++ ['\n'])], di, nc⟩).1
  exact setBuf_self _ _ hf

theorem indexable_of_eqStr {v : Value} {key text : String}
    (h : (v.get key).eqStr text = true) : v.indexable = true := by
  cases v <;> simp_all [Value.get, Value.eqStr, Value.indexable]

/-- C9 (successful handshake sequence).  The server is started with
`ServeMetadata` and receives one handshake request frame (a one-line document
`doc` between the sentinel lines, whose enqueued body the reader gives the
type handshake and a protocolVersion that `asString()` accepts: a string, or
absent), either before or after the first write completes.  JsonCpp raises
nowhere while the request is handled in Started.  When the cache loads, the
generator name and the home directory are in the cache and compute succeeds,
the writes are, in this order and with nothing else: progress
process-started, initialized, configured, computed, and progress idle with the
provider's source_dir, binary_dir and the project_name of the first local
generator; the final state is ProcessingRequests. -/
theorem handshake_sequence (env : Env) (buildDir : String) (doc : List Char) (g h : String)
    (hcache : env.newCmake.LoadCache buildDir = true)
    (hgen : env.newCmake.GetInitializedCacheValue "CMAKE_GENERATOR" = some g)
    (hhome : env.newCmake.GetInitializedCacheValue "CMAKE_HOME_DIRECTORY" = some h)
    (hcompute : env.newCmake.Compute = true)
    (hdoc : '\n' ∉ doc) (hb : doc ≠ beginMagic) (he : doc ≠ endMagic)
    (htype : ((env.parse (doc ++ '\n' :: endMagic ++ ['\n'])).get "type").eqStr "handshake"
      = true)
    (hpv : ((env.parse (doc ++ '\n' :: endMagic ++ ['\n'])).get "protocolVersion").convertible
      = true) :
    (∀ s : Server, s.State = .Started →
      raises env s (doc ++ '\n' :: endMagic ++ ['\n']) = false) ∧
    (run env (start env buildDir)
        [.chunk (unlines [beginMagic, doc, endMagic]), .writeDone]).map
      (fun s => (s.written, s.State))
      = some ([payload env (progress "process-started"), payload env (progress "initialized"),
          payload env (progress "configured"), payload env (progress "computed"),
          payload env (.object [("binary_dir", .string env.newCmake.GetBinaryDirectory),
            ("progress", .string "idle"),
            ("project_name",
              .string (env.newCmake.GetLocalGenerators.getD 0 default).GetProjectName),
            ("source_dir", .string env.newCmake.GetSourceDirectory)])],
        .ProcessingRequests) ∧
    (run env (start env buildDir)
        [.writeDone, .chunk (unlines [beginMagic, doc, endMagic])]).map
      (fun s => (s.written, s.State))
      = some ([payload env (progress "process-started"), payload env (progress "initialized"),
          payload env (progress "configured"), payload env (progress "computed"),
          payload env (.object [("binary_dir", .string env.newCmake.GetBinaryDirectory),
            ("progress", .string "idle"),
            ("project_name",
              .string (env.newCmake.GetLocalGenerators.getD 0 default).GetProjectName),
            ("source_dir", .string env.newCmake.GetSourceDirectory)])],
        .ProcessingRequests) := by
  have hs0 : start env buildDir
      = ⟨.Started, true, [], [], [], buildDir, none,
          [payload env (progress "process-started")], 0, [], [], 0⟩ := rfl
  refine ⟨?_, ?_, ?_⟩
  · intro s hS
    have hi := indexable_of_eqStr htype
    unfold raises
    simp only [hS, hi, htype, hpv]
    rfl
  · simp only [run, step, Option.some_bind, hs0]
    rw [handleData_frame_busy env _ doc rfl rfl hdoc hb he]
    rw [if_pos (by simp)]
    simp only [Option.some_bind, Option.map_some', on_stdout_write, List.nil_append]
    rw [PopOne_cons env _ (doc ++ '\n' :: endMagic ++ ['\n']) [] rfl]
    rw [processRequest_handshake env _ _ rfl htype]
    rw [ProcessHandshake_success env _ _ g h hcache hgen hhome hcompute]
    rfl
  · simp only [run, step, Option.some_bind, hs0]
    rw [if_pos (by simp)]
    simp only [Option.some_bind, Option.map_some', on_stdout_write]
    rw [PopOne_nil env _ rfl]
    rw [handleData_frame_idle env _ doc rfl rfl hdoc hb he]
    simp only [List.nil_append]
    rw [PopOne_cons env _ (doc ++ '\n' :: endMagic ++ ['\n']) [] rfl]
    rw [processRequest_handshake env _ _ rfl htype]
    rw [ProcessHandshake_success env _ _ g h hcache hgen hhome hcompute]
    rfl

/-- C9 with the fake provider (generator "Fake", source directory "/src") and a
handshake request without a protocolVersion member. -/
theorem handshake_sequence_witness :
    Fake.provider.LoadCache "/build" = true ∧ Fake.provider.Compute = true ∧
    ((Fake.env.parse Fake.handshakeBody).get "protocolVersion").convertible = true ∧
    (run Fake.env (start Fake.env "/build")
        [.chunk (unlines [beginMagic, "\x7b\"type\":\"handshake\"\x7d".toList, endMagic]),
          .writeDone]).map
      (fun s => (s.written, s.State))
      = some ([payload Fake.env (progress "process-started"),
          payload Fake.env (progress "initialized"),
          payload Fake.env (progress "configured"), payload Fake.env (progress "computed"),
          payload Fake.env (.object [("binary_dir", .string "/build"),
            ("progress", .string "idle"), ("project_name", .string "demo"),
            ("source_dir", .string "/src")])],
        .ProcessingRequests) :=
  ⟨rfl, rfl, by decide,
    (handshake_sequence Fake.env "/build" "\x7b\"type\":\"handshake\"\x7d".toList "Fake" "/src"
      rfl (by decide) (by decide) rfl (by decide) (by decide) (by decide) (by decide)
      (by decide)).2.1⟩

theorem ProcessHandshake_failsEarly (env : Env) (s : Server) (pv : String)
    (hfail : failsEarly env.newCmake s.m_buildDir = true) :
    ProcessHandshake env s pv
      = { s with State := .Initializing, CMakeInstance := some env.newCmake,
                 created := s.created + 1 } := by
  unfold ProcessHandshake
  simp only [failsEarly, Bool.or_eq_true, Option.isNone_iff_eq_none] at hfail
  simp only []
  split
  · rfl
  · rename_i hc
    split
    · rfl
    · rename_i g hg
      split
      · rfl
      · rename_i h hh
        rcases hfail with (hfail | hfail) | hfail
        · exact absurd hfail hc
        · rw [hfail] at hg; cases hg
        · rw [hfail] at hh; cases hh

theorem ProcessHandshake_computeFails (env : Env) (s : Server) (pv : String)
    (hearly : failsEarly env.newCmake s.m_buildDir = false)
    (hcompute : env.newCmake.Compute = false) :
    ProcessHandshake env s pv
      = { s with
          State := .Initializing, Writing := true, CMakeInstance := some env.newCmake,
          created := s.created + 1,
          written := s.written ++
            [payload env (progress "initialized"), payload env (progress "configured")] } := by
  simp only [failsEarly, Bool.or_eq_false_iff, Bool.not_eq_false'] at hearly
  obtain ⟨⟨h1, h2⟩, h3⟩ := hearly
  cases hg : env.newCmake.GetInitializedCacheValue "CMAKE_GENERATOR" with
  | none => rw [hg] at h2; cases h2
  | some g =>
    cases hh : env.newCmake.GetInitializedCacheValue "CMAKE_HOME_DIRECTORY" with
    | none => rw [hh] at h3; cases h3
    | some h =>
      unfold ProcessHandshake
      simp only [h1, hg, hh, hcompute, WriteResponse_eq]
      simp [progress, objectValue, Value.set, Json.insert]

/-! ### A server left in Initializing -/

theorem stalled_processRequest (env : Env) (s : Server) (j : List Char)
    (h : s.State = .Initializing) : processRequest env s j = logged s j :=
  processRequest_dropped env s j (fun hA => by rw [h] at hA; cases hA.1)
    (fun hB => by rw [h] at hB; cases hB.1)

theorem stalled_PopOne (env : Env) (s : Server) (h : s.State = .Initializing) :
    (PopOne env s).State = .Initializing ∧ (PopOne env s).written = s.written := by
  cases hq : s.mQueue with
  | nil => rw [PopOne_nil env s hq]; exact ⟨h, rfl⟩
  | cons front rest =>
    rw [PopOne_cons env s front rest hq,
      stalled_processRequest env { s with Writing := false } front h]
    exact ⟨h, rfl⟩

theorem stalled_handleLine (env : Env) (s : Server) (line : List Char)
    (h : s.State = .Initializing) :
    (handleLine env s line).State = .Initializing ∧
    (handleLine env s line).written = s.written := by
  obtain ⟨st, w, buf, js, q, bd, ci, wr, co, en, di, nc⟩ := s
  unfold handleLine
  split
  · exact ⟨h, rfl⟩
  · split
    · cases w
      · exact stalled_PopOne env
          ⟨st, false, buf, [], q ++ [js ++ line ++ ['\n']], bd, ci, wr, co,
            en ++ [js ++ line ++ ['\n']], di, nc⟩ h
      · exact ⟨h, rfl⟩
    · exact ⟨h, rfl⟩

theorem stalled_foldl_handleLine (env : Env) : ∀ (ls : List (List Char)) (s : Server),
    s.State = .Initializing →
    (ls.foldl (handleLine env) s).State = .Initializing ∧
    (ls.foldl (handleLine env) s).written = s.written
  | [], _, h => ⟨h, rfl⟩
  | l :: ls, s, h => by
    obtain ⟨h1, h2⟩ := stalled_handleLine env s l h
    obtain ⟨h3, h4⟩ := stalled_foldl_handleLine env ls _ h1
    exact ⟨h3, h4.trans h2⟩

theorem stalled_step (env : Env) (s s2 : Server) (e : Event) (h : s.State = .Initializing)
    (hs : step env s e = some s2) : s2.State = .Initializing ∧ s2.written = s.written := by
  cases e with
  | chunk data =>
    simp only [step, Option.some.injEq] at hs
    subst hs
    rw [handleData_eq]
    exact stalled_foldl_handleLine env _ s h
  | writeDone =>
    simp only [step] at hs
    split at hs
    · simp only [Option.some.injEq] at hs
      subst hs
      exact stalled_PopOne env { s with completed := s.completed + 1 } h
    · cases hs

theorem stalled_run (env : Env) : ∀ (es : List Event) (s s2 : Server),
    s.State = .Initializing → run env s es = some s2 →
    s2.State = .Initializing ∧ s2.written = s.written
  | [], s, s2, h, hr => by
    simp only [run, Option.some.injEq] at hr
    subst hr
    exact ⟨h, rfl⟩
  | e :: es, s, s2, h, hr => by
    simp only [run] at hr
    cases hs : step env s e with
    | none => rw [hs] at hr; cases hr
    | some s1 =>
      rw [hs] at hr
      obtain ⟨h1, h2⟩ := stalled_step env s s1 e h hs
      obtain ⟨h3, h4⟩ := stalled_run env es s1 s2 h1 hr
      exact ⟨h3, h4.trans h2⟩

/-- C10 (a failed handshake stalls silently).  When a step of the handshake
fails (the cache does not load, the generator name or the home directory is
missing from the cache, or compute reports failure), `ProcessHandshake` leaves
the state at Initializing; it has written nothing when the failure is before
compute, and only the two notifications progress initialized and progress
configured when compute fails, so nothing after the failing step and no error
response.  From then on every request of every type handed to
`processRequest` is dropped with no write and no state change, and over every
sequence of chunk arrivals and write completions the state stays Initializing
and nothing more is written. -/
theorem failed_handshake_stalls (env : Env) (s : Server) (pv : String)
    (hfail : handshakeFails env.newCmake s.m_buildDir = true) :
    (ProcessHandshake env s pv).State = .Initializing ∧
    (ProcessHandshake env s pv).written
      = s.written ++
          (if failsEarly env.newCmake s.m_buildDir then []
           else [payload env (progress "initialized"), payload env (progress "configured")]) ∧
    (∀ json,
      (processRequest env (ProcessHandshake env s pv) json).written
          = (ProcessHandshake env s pv).written ∧
      (processRequest env (ProcessHandshake env s pv) json).State = .Initializing) ∧
    (∀ es s2, run env (ProcessHandshake env s pv) es = some s2 →
      s2.State = .Initializing ∧ s2.written = (ProcessHandshake env s pv).written) := by
  have hst : (ProcessHandshake env s pv).State = .Initializing ∧
      (ProcessHandshake env s pv).written
        = s.written ++
          (if failsEarly env.newCmake s.m_buildDir then []
           else [payload env (progress "initialized"), payload env (progress "configured")]) := by
    cases hearly : failsEarly env.newCmake s.m_buildDir with
    | true =>
      rw [ProcessHandshake_failsEarly env s pv hearly]
      simp
    | false =>
      have hc : env.newCmake.Compute = false := by
        simpa [handshakeFails, hearly] using hfail
      rw [ProcessHandshake_computeFails env s pv hearly hc]
      simp
  refine ⟨hst.1, hst.2, ?_, ?_⟩
  · intro json
    rw [stalled_processRequest env _ json hst.1]
    exact ⟨rfl, hst.1⟩
  · intro es s2 hr
    exact stalled_run env es _ s2 hst.1 hr

/-- C10 with a provider whose compute step fails: the handshake writes the
notifications initialized and configured and stops, and a later version request
is dropped. -/
theorem failed_handshake_stalls_witness :
    handshakeFails Fake.envComputeFails.newCmake (start Fake.envComputeFails "/build").m_buildDir
      = true ∧
    (ProcessHandshake Fake.envComputeFails (start Fake.envComputeFails "/build") "1").State
      = .Initializing ∧
    (ProcessHandshake Fake.envComputeFails (start Fake.envComputeFails "/build") "1").written
      = (start Fake.envComputeFails "/build").written ++
          (if failsEarly Fake.envComputeFails.newCmake
              (start Fake.envComputeFails "/build").m_buildDir then []
           else [payload Fake.envComputeFails (progress "initialized"),
             payload Fake.envComputeFails (progress "configured")]) :=
  ⟨by decide,
    (failed_handshake_stalls Fake.envComputeFails (start Fake.envComputeFails "/build") "1"
      (by decide)).1,
    (failed_handshake_stalls Fake.envComputeFails (start Fake.envComputeFails "/build") "1"
      (by decide)).2.1⟩

/-- C18 (encoder framing).  For every value, `WriteResponse` issues exactly
one write; its bytes are a newline, the begin sentinel line with its newline,
the serialized value, and the end sentinel line with its newline, in that
order.  It sets the Writing flag and changes nothing else: session state,
queue, decoder buffer and accumulator, build directory, instance and the other
logs are as before. -/
theorem WriteResponse_frame (env : Env) (s : Server) (v : Value) :
    (WriteResponse env s v).written
      = s.written ++
          ["\n".toList ++ ("[== CMake MetaMagic ==[".toList ++ "\n".toList) ++ env.write v
            ++ ("]== CMake MetaMagic ==]".toList ++ "\n".toList)] ∧
    (WriteResponse env s v).Writing = true ∧
    (WriteResponse env s v).State = s.State ∧
    (WriteResponse env s v).mQueue = s.mQueue ∧
    (WriteResponse env s v).mDataBuffer = s.mDataBuffer ∧
    (WriteResponse env s v).mJsonData = s.mJsonData ∧
    (WriteResponse env s v).m_buildDir = s.m_buildDir ∧
    (WriteResponse env s v).CMakeInstance = s.CMakeInstance ∧
    (WriteResponse env s v).completed = s.completed ∧
    (WriteResponse env s v).enqueued = s.enqueued ∧
    (WriteResponse env s v).dispatched = s.dispatched ∧
    (WriteResponse env s v).created = s.created :=
  ⟨rfl, rfl, rfl, rfl, rfl, rfl, rfl, rfl, rfl, rfl, rfl, rfl⟩

/-! ### The buffer after a chunk -/

theorem unlines_cons (l : List Char) (ls : List (List Char)) :
    unlines (l :: ls) = l ++ '\n' :: unlines ls := by
  simp [unlines]

/-- A text is its complete lines, each with its newline, followed by the text
after the last newline. -/
theorem unlines_splitLines : ∀ (x : List Char),
    unlines (splitLines x).1 ++ (splitLines x).2 = x
  | [] => by simp [splitLines, unlines]
  | c :: cs => by
    have ih := unlines_splitLines cs
    by_cases hc : c = '\n'
    · simp only [splitLines, hc, if_true, unlines_cons, List.nil_append, List.cons_append]
      rw [ih]
    · cases h : (splitLines cs).1 with
      | nil =>
        rw [h] at ih
        simp only [splitLines, hc, if_false, h]
        simp only [unlines, List.map_nil, List.flatten_nil, List.nil_append] at ih ⊢
        rw [ih]
      | cons l ls =>
        rw [h] at ih
        simp only [splitLines, hc, if_false, h, unlines_cons, List.cons_append] at ih ⊢
        rw [ih]

/-- C17 (decoding is independent of chunk boundaries).  For every server and
all byte strings `a` and `b`, `handleData` on `a` and then on `b` yields the
same server (buffer, accumulator, queue, session state, Writing flag, and with
them the same enqueued messages, dispatches and writes) as one `handleData` on
`a ++ b`.  After any `handleData` call the buffer holds no newline, and it is
the text after the last newline of the old buffer followed by the chunk: what
precedes it there is empty or ends with a newline. -/
theorem handleData_chunk_independent (env : Env) (s : Server) (a b : List Char) :
    handleData env (handleData env s a) b = handleData env s (a ++ b) ∧
    '\n' ∉ (handleData env s a).mDataBuffer ∧
    ∃ before, s.mDataBuffer ++ a = before ++ (handleData env s a).mDataBuffer ∧
      (before = [] ∨ ∃ p, before = p ++ ['\n']) := by
  refine ⟨handleData_handleData env s a b, ?_, ?_⟩
  · rw [(handleData_decode env s a).1]
    exact splitLines_rest_no_newline _
  · rw [(handleData_decode env s a).1]
    refine ⟨unlines (splitLines (s.mDataBuffer ++ a)).1, (unlines_splitLines _).symm, ?_⟩
    cases h : (splitLines (s.mDataBuffer ++ a)).1 with
    | nil => left; rfl
    | cons l ls =>
      right
      refine ⟨unlines ((l :: ls).dropLast) ++ (l :: ls).getLast (by simp), ?_⟩
      have e : l :: ls = (l :: ls).dropLast ++ [(l :: ls).getLast (by simp)] :=
        (List.dropLast_append_getLast (by simp)).symm
      conv => lhs; rw [e]
      simp [unlines]

/-! ### Text outside a frame -/

theorem unlines_append (xs ys : List (List Char)) :
    unlines (xs ++ ys) = unlines xs ++ unlines ys := by
  simp [unlines]

/-- Lines without an end sentinel enqueue nothing. -/
theorem foldl_decodeLine_no_end : ∀ (ls : List (List Char)) (acc : List Char)
    (out : List (List Char)), endMagic ∉ ls → (ls.foldl decodeLine (acc, out)).2 = out
  | [], _, _, _ => rfl
  | l :: ls, acc, out, h => by
    have hl : l ≠ endMagic := fun e => h (by simp [e])
    have hls : endMagic ∉ ls := fun e => h (by simp [e])
    simp only [List.foldl_cons, decodeLine, hl, if_false]
    split
    · exact foldl_decodeLine_no_end ls _ out hls
    · exact foldl_decodeLine_no_end ls _ out hls

/-- A complete frame, whatever was accumulated before it, enqueues its body
lines followed by the end sentinel line. -/
theorem foldl_decodeLine_frame (ls : List (List Char)) (acc : List Char)
    (out : List (List Char)) (hns : ∀ l ∈ ls, l ≠ beginMagic ∧ l ≠ endMagic) :
    (beginMagic :: (ls ++ [endMagic])).foldl decodeLine (acc, out)
      = ([], out ++ [unlines ls ++ (endMagic ++ ['\n'])]) := by
  have e2 : endMagic ≠ beginMagic := by decide
  simp only [List.foldl_cons, List.foldl_append, List.foldl_nil]
  rw [show decodeLine (acc, out) beginMagic = ([], out) by simp [decodeLine],
    foldl_decodeLine_body ls [] out hns]
  simp [decodeLine, e2]

theorem feed_decode (env : Env) (s : Server) (chunks : List (List Char))
    (hbuf : s.mDataBuffer = []) (hne : chunks ≠ []) :
    ((feed env s chunks).mJsonData, (feed env s chunks).enqueued)
      = (splitLines chunks.flatten).1.foldl decodeLine (s.mJsonData, s.enqueued) := by
  obtain ⟨c, cs, rfl⟩ := List.exists_cons_of_ne_nil hne
  rw [feed_eq_handleData, (handleData_decode env s _).2, hbuf, List.nil_append]

/-- C15, as stated, fails: the input has no begin sentinel line, and its end
sentinel line enqueues the text accumulated before it. -/
theorem stray_end_sentinel_enqueues :
    beginMagic ∉ (splitLines "x\n]== CMake MetaMagic ==]\n".toList).1 ∧
    (feed Fake.env new ["x\n]== CMake MetaMagic ==]\n".toList]).enqueued
      = ["x\n]== CMake MetaMagic ==]\n".toList] := by
  decide

/-- Lines without an end sentinel are accumulated: the accumulator ends with
the lines kept since the last begin sentinel, after its old text when no begin
sentinel came. -/
theorem foldl_decodeLine_acc : ∀ (ls : List (List Char)) (base : List Char)
    (pre : List (List Char)) (out : List (List Char)), endMagic ∉ ls →
    (ls.foldl decodeLine (base ++ unlines pre, out)).1
      = (if beginMagic ∈ ls then [] else base)
        ++ unlines (ls.foldl (fun kept l => if l = beginMagic then [] else kept ++ [l]) pre)
  | [], base, pre, out, _ => by simp
  | l :: ls, base, pre, out, h => by
    have hl : l ≠ endMagic := fun e => h (by simp [e])
    have hls : endMagic ∉ ls := fun e => h (by simp [e])
    by_cases hb : l = beginMagic
    · have ih := foldl_decodeLine_acc ls [] [] out hls
      simp only [unlines, List.map_nil, List.flatten_nil, List.append_nil] at ih
      simp only [List.foldl_cons, decodeLine, hb, if_true, List.mem_cons, true_or]
      rw [ih]
      simp [unlines]
    · have ih := foldl_decodeLine_acc ls base (pre ++ [l]) out hls
      have e : base ++ unlines pre ++ l ++ ['\n'] = base ++ unlines (pre ++ [l]) := by
        simp [unlines]
      have hm : (beginMagic ∈ l :: ls) = (beginMagic ∈ ls) := by
        simp [List.mem_cons, Ne.symm hb]
      simp only [List.foldl_cons, decodeLine, hb, hl, if_false, e, hm]
      exact ih

/-- C15, amended.  For every input fed, in any chunking, to a decoder with an
empty buffer and no message enqueued so far, in which no line equals the end
sentinel, no message is enqueued, whatever else the input contains.  The lines
are accumulated instead: afterwards the accumulator holds, each with its
newline, the lines that follow the last begin sentinel line, or, when no line
equals the begin sentinel, what it held before followed by all the lines. -/
theorem no_end_sentinel_no_message (env : Env) (s : Server) (chunks : List (List Char))
    (hbuf : s.mDataBuffer = []) (henq : s.enqueued = [])
    (hno : endMagic ∉ (splitLines chunks.flatten).1) :
    (feed env s chunks).enqueued = [] ∧
    (feed env s chunks).mJsonData
      = (if beginMagic ∈ (splitLines chunks.flatten).1 then [] else s.mJsonData)
        ++ unlines (sinceBegin (splitLines chunks.flatten).1) := by
  by_cases hne : chunks = []
  · subst hne
    exact ⟨henq, by simp [feed, splitLines, sinceBegin, unlines]⟩
  · have h := feed_decode env s chunks hbuf hne
    have h1 := congrArg Prod.fst h
    have h2 := congrArg Prod.snd h
    simp only at h1 h2
    refine ⟨by rw [h2, foldl_decodeLine_no_end _ _ _ hno, henq], ?_⟩
    have hacc := foldl_decodeLine_acc (splitLines chunks.flatten).1 s.mJsonData [] s.enqueued hno
    simp only [unlines, List.map_nil, List.flatten_nil, List.append_nil] at hacc
    rw [h1, hacc]
    rfl

/-- C15 amended, at a concrete input: stray lines and a begin sentinel, cut in
two chunks, and no end sentinel; nothing is enqueued and the accumulator holds
the line after the begin sentinel. -/
theorem no_end_sentinel_no_message_witness :
    endMagic ∉ (splitLines ["garbage\n[== CMake".toList,
      " MetaMagic ==[\nhalf a body\n".toList].flatten).1 ∧
    (feed Fake.env new ["garbage\n[== CMake".toList,
      " MetaMagic ==[\nhalf a body\n".toList]).enqueued = [] ∧
    (feed Fake.env new ["garbage\n[== CMake".toList,
      " MetaMagic ==[\nhalf a body\n".toList]).mJsonData = "half a body\n".toList :=
  ⟨by decide, (no_end_sentinel_no_message Fake.env new _ rfl rfl (by decide)).1,
    ((no_end_sentinel_no_message Fake.env new _ rfl rfl (by decide)).2).trans (by decide)⟩

/-- C16 (resynchronization).  Let the stray text be newline-terminated lines
none of which equals the end sentinel (begin sentinels and partial bodies are
allowed), and let the frame be the begin sentinel line, body lines that are not
sentinels, and the end sentinel line.  Feeding the stray text followed by the
frame, cut into one or more chunks in any way, to a fresh decoder (empty
buffer, nothing enqueued; the accumulator may even hold text) enqueues exactly
one message, the same one that feeding the frame alone to it enqueues; nothing
of the stray text is in it. -/
theorem resynchronization (env : Env) (s : Server) (stray ls : List (List Char))
    (chunks : List (List Char))
    (hbuf : s.mDataBuffer = []) (henq : s.enqueued = [])
    (hs_nl : ∀ l ∈ stray, '\n' ∉ l) (hs_end : endMagic ∉ stray)
    (hl_nl : ∀ l ∈ ls, '\n' ∉ l) (hl_ns : ∀ l ∈ ls, l ≠ beginMagic ∧ l ≠ endMagic)
    (hne : chunks ≠ [])
    (hflat : chunks.flatten = unlines stray ++ unlines (beginMagic :: ls ++ [endMagic])) :
    (feed env s chunks).enqueued
      = (handleData env s (unlines (beginMagic :: ls ++ [endMagic]))).enqueued ∧
    (feed env s chunks).enqueued = [unlines ls ++ (endMagic ++ ['\n'])] := by
  have hframe : ∀ l ∈ beginMagic :: (ls ++ [endMagic]), '\n' ∉ l := by
    intro l hl
    simp only [List.mem_cons, List.mem_append, List.mem_singleton,
      List.not_mem_nil, or_false] at hl
    rcases hl with rfl | hl | rfl
    · exact newline_not_mem_beginMagic
    · exact hl_nl l hl
    · exact newline_not_mem_endMagic
  have hall : ∀ l ∈ stray ++ beginMagic :: (ls ++ [endMagic]), '\n' ∉ l := by
    intro l hl
    rcases List.mem_append.mp hl with hl | hl
    · exact hs_nl l hl
    · exact hframe l hl
  -- the frame alone
  have h1 := congrArg Prod.snd (handleData_decode env s (unlines (beginMagic :: ls ++ [endMagic]))).2
  simp only [List.cons_append] at h1
  have sp1 := splitLines_unlines (beginMagic :: (ls ++ [endMagic])) [] hframe
  rw [List.append_nil] at sp1
  rw [hbuf, List.nil_append, sp1] at h1
  simp only [splitLines, List.append_nil] at h1
  rw [foldl_decodeLine_frame ls _ _ hl_ns, henq, List.nil_append] at h1
  -- the stray text followed by the frame
  have h2 := congrArg Prod.snd (feed_decode env s chunks hbuf hne)
  simp only [List.cons_append] at hflat
  rw [hflat, ← unlines_append] at h2
  have sp2 := splitLines_unlines (stray ++ beginMagic :: (ls ++ [endMagic])) [] hall
  rw [List.append_nil] at sp2
  rw [sp2] at h2
  simp only [splitLines, List.append_nil, List.foldl_append] at h2
  have h3 : List.foldl decodeLine (s.mJsonData, s.enqueued) stray
      = ((List.foldl decodeLine (s.mJsonData, s.enqueued) stray).1, []) := by
    apply Prod.ext
    · rfl
    · simp only
      rw [foldl_decodeLine_no_end stray _ _ hs_end, henq]
  rw [h3, foldl_decodeLine_frame ls _ _ hl_ns, List.nil_append] at h2
  simp only [List.cons_append]
  exact ⟨h2.trans h1.symm, h2⟩

/-- C16 at a concrete input: a stray line, a begin sentinel and half a body,
then a complete frame with the body line `b`; the text is cut in two chunks. -/
theorem resynchronization_witness :
    ["junk\n[== CMake MetaMagic ==[\nhalf\n[== CMake Meta".toList,
        "Magic ==[\nb\n]== CMake MetaMagic ==]\n".toList].flatten
      = unlines ["junk".toList, beginMagic, "half".toList]
        ++ unlines (beginMagic :: ["b".toList] ++ [endMagic]) ∧
    (feed Fake.env new ["junk\n[== CMake MetaMagic ==[\nhalf\n[== CMake Meta".toList,
        "Magic ==[\nb\n]== CMake MetaMagic ==]\n".toList]).enqueued
      = [unlines ["b".toList] ++ (endMagic ++ ['\n'])] :=
  ⟨by decide,
    (resynchronization Fake.env new ["junk".toList, beginMagic, "half".toList] ["b".toList] _
      rfl rfl (by decide) (by decide) (by decide) (by decide) (by decide) (by decide)).2⟩

/-! ### The Writing flag and the calls of `ProcessHandshake` over every trace -/

theorem processRequest_dispatched (env : Env) (s : Server) (j : List Char) :
    (processRequest env s j).dispatched = s.dispatched ++ [⟨j, pending s, s.State⟩] := by
  obtain ⟨⟨-, -, -, -, -, -, -, -, -, h⟩, -⟩ := processRequest_wrote env s j
  exact h

/-- The state after `processRequest`: it leaves Started exactly when
`ProcessHandshake` is called, and is unchanged otherwise. -/
theorem processRequest_State (env : Env) (s : Server) (j : List Char) :
    (s.State = .Started ∧ ((env.parse j).get "type").eqStr "handshake" = true →
      (processRequest env s j).State ≠ .Started) ∧
    (¬ (s.State = .Started ∧ ((env.parse j).get "type").eqStr "handshake" = true) →
      (processRequest env s j).State = s.State) := by
  rcases processRequest_cases env s j with
    ⟨hS, hT, h⟩ | ⟨hS, hT, h⟩ | ⟨hS, hT, h⟩ | ⟨hS, hT, h⟩ | ⟨hS, hT, h⟩ | ⟨hA, hB, h⟩
  · refine ⟨fun _ => ?_, fun hn => absurd ⟨hS, hT⟩ hn⟩
    rw [h]
    rcases (ProcessHandshake_wrote env (logged s j) _).2.2.1 with e | e <;> rw [e] <;> decide
  · exact ⟨fun hh => (by rw [hS] at hh; cases hh.1),
      fun _ => by rw [h]; exact (ProcessVersion_wrote env _).2.2.1⟩
  · exact ⟨fun hh => (by rw [hS] at hh; cases hh.1),
      fun _ => by rw [h]; exact (ProcessBuildsystem_wrote env _).2.2.1⟩
  · exact ⟨fun hh => (by rw [hS] at hh; cases hh.1),
      fun _ => by rw [h]; exact (ProcessTargetInfo_wrote env _ _ _ _).2.2.1⟩
  · exact ⟨fun hh => (by rw [hS] at hh; cases hh.1),
      fun _ => by rw [h]; exact (ProcessFileInfo_wrote env _ _ _ _).2.2.1⟩
  · exact ⟨fun hh => absurd hh hA, fun _ => by rw [h]; rfl⟩

theorem ProcessHandshake_created (env : Env) (s : Server) (pv : String) :
    (ProcessHandshake env s pv).created = s.created + 1 := by
  unfold ProcessHandshake
  simp only []
  split
  · rfl
  · split
    · rfl
    · split
      · rfl
      · split <;> rfl

theorem ProcessBuildsystem_created (env : Env) (s : Server) :
    (ProcessBuildsystem env s).created = s.created := by
  unfold ProcessBuildsystem
  split <;> rfl

theorem ProcessTargetInfo_created (env : Env) (s : Server) (t c : String) (l : Option String) :
    (ProcessTargetInfo env s t c l).created = s.created := by
  unfold ProcessTargetInfo
  split
  · rfl
  · split <;> rfl

theorem ProcessFileInfo_created (env : Env) (s : Server) (t c f : String) :
    (ProcessFileInfo env s t c f).created = s.created := by
  unfold ProcessFileInfo
  split
  · rfl
  · split
    · rfl
    · simp only []
      split <;> rfl

/-- A `processRequest` call evaluates `new cmake` once when it calls
`ProcessHandshake`, which it does in Started on a handshake request, and not at
all otherwise. -/
theorem processRequest_created (env : Env) (s : Server) (j : List Char) :
    (processRequest env s j).created
      = s.created
        + (if s.State = .Started ∧ ((env.parse j).get "type").eqStr "handshake" = true
            then 1 else 0) := by
  rcases processRequest_cases env s j with
    ⟨hS, hT, h⟩ | ⟨hS, hT, h⟩ | ⟨hS, hT, h⟩ | ⟨hS, hT, h⟩ | ⟨hS, hT, h⟩ | ⟨hA, hB, h⟩
  · rw [h, ProcessHandshake_created, if_pos ⟨hS, hT⟩]
    rfl
  · rw [h, if_neg (fun hh => by rw [hS] at hh; cases hh.1)]
    rfl
  · rw [h, ProcessBuildsystem_created, if_neg (fun hh => by rw [hS] at hh; cases hh.1)]
    rfl
  · rw [h, ProcessTargetInfo_created, if_neg (fun hh => by rw [hS] at hh; cases hh.1)]
    rfl
  · rw [h, ProcessFileInfo_created, if_neg (fun hh => by rw [hS] at hh; cases hh.1)]
    rfl
  · rw [h, if_neg hA]
    rfl

/-- The flag invariant survives `PopOne`, when it holds once the flag is
cleared. -/
theorem FlagInv_PopOne (env : Env) (s : Server) (h : FlagInv { s with Writing := false }) :
    FlagInv (PopOne env s) := by
  cases hq : s.mQueue with
  | nil => rw [PopOne_nil env s hq]; exact h
  | cons front rest =>
    rw [PopOne_cons env s front rest hq]
    generalize hs0 : ({ s with Writing := false } : Server) = s0 at h ⊢
    have hw0 : s0.Writing = false := by rw [← hs0]
    obtain ⟨hw, hW0, -, -, -, -, -, hc, -, -⟩ := (processRequest_wrote env s0 front).1
    have hcalls := processRequest_created env s0 front
    obtain ⟨hst1, hst2⟩ := processRequest_State env s0 front
    generalize newWrites s0 (processRequest env s0 front) = ws at hw hW0
    generalize processRequest env s0 front = s1 at hw hW0 hc hcalls hst1 hst2
    simp only [logged] at hw hW0 hc
    have hlen : s1.written.length = s0.written.length + ws.length := by
      rw [hw, List.length_append]
    have hcl := h.completed_le
    refine ⟨?_, ?_, ?_, ?_⟩
    · show s1.completed ≤ s1.written.length
      rw [hc, hlen]; omega
    · intro e
      replace e : s1.Writing = true := e
      show s1.completed < s1.written.length
      have hne : ws ≠ [] := by
        intro e0
        rw [hW0 e0, hw0] at e
        cases e
      have : 0 < ws.length := List.length_pos.mpr hne
      rw [hc, hlen]; omega
    · intro e
      replace e : s1.State = .Started := e
      show s1.created = 0
      by_cases hh : s0.State = .Started ∧
          ((env.parse front).get "type").eqStr "handshake" = true
      · exact absurd e (hst1 hh)
      · rw [hcalls, if_neg hh, h.started_none ((hst2 hh) ▸ e)]
    · show s1.created ≤ 1
      by_cases hh : s0.State = .Started ∧
          ((env.parse front).get "type").eqStr "handshake" = true
      · rw [hcalls, if_pos hh, h.started_none hh.1]
      · rw [hcalls, if_neg hh]
        exact h.created_le

theorem FlagInv_handleLine (env : Env) (s : Server) (line : List Char) (h : FlagInv s) :
    FlagInv (handleLine env s line) := by
  obtain ⟨st, w, buf, js, q, bd, ci, wr, co, en, di, nc⟩ := s
  unfold handleLine
  split
  · exact ⟨h.completed_le, h.writing_pending, h.started_none, h.created_le⟩
  · split
    · have h2 : FlagInv ⟨st, w, buf, [], q ++ [js ++ line ++ ['\n']], bd, ci, wr, co,
          en ++ [js ++ line ++ ['\n']], di, nc⟩ :=
        ⟨h.completed_le, h.writing_pending, h.started_none, h.created_le⟩
      cases w
      · exact FlagInv_PopOne env _ h2
      · exact h2
    · exact ⟨h.completed_le, h.writing_pending, h.started_none, h.created_le⟩

theorem FlagInv_foldl_handleLine (env : Env) : ∀ (ls : List (List Char)) (s : Server),
    FlagInv s → FlagInv (ls.foldl (handleLine env) s)
  | [], _, h => h
  | l :: ls, s, h => FlagInv_foldl_handleLine env ls _ (FlagInv_handleLine env s l h)

theorem FlagInv_step (env : Env) (s s2 : Server) (e : Event) (h : FlagInv s)
    (hs : step env s e = some s2) : FlagInv s2 := by
  cases e with
  | chunk data =>
    simp only [step, Option.some.injEq] at hs
    subst hs
    rw [handleData_eq]
    have h2 := FlagInv_foldl_handleLine env (splitLines (s.mDataBuffer ++ data)).1 s h
    exact ⟨h2.completed_le, h2.writing_pending, h2.started_none, h2.created_le⟩
  | writeDone =>
    simp only [step] at hs
    split at hs
    · rename_i hp
      simp only [Option.some.injEq] at hs
      subst hs
      unfold on_stdout_write
      apply FlagInv_PopOne
      exact ⟨hp, fun e => (by cases e), h.started_none, h.created_le⟩
    · cases hs

theorem FlagInv_run (env : Env) : ∀ (es : List Event) (s s2 : Server), FlagInv s →
    run env s es = some s2 → FlagInv s2
  | [], s, s2, h, hr => by
    simp only [run, Option.some.injEq] at hr
    subst hr
    exact h
  | e :: es, s, s2, h, hr => by
    simp only [run] at hr
    cases hs : step env s e with
    | none => rw [hs] at hr; cases hr
    | some s1 =>
      rw [hs] at hr
      exact FlagInv_run env es s1 s2 (FlagInv_step env s s1 e h hs) hr

theorem FlagInv_start (env : Env) (buildDir : String) : FlagInv (start env buildDir) := by
  refine ⟨?_, ?_, ?_, ?_⟩ <;>
    simp [start, ServeMetadata, WriteResponse_eq, new]

theorem Reachable_flagInv {env : Env} {s : Server} (h : Reachable env s) : FlagInv s := by
  obtain ⟨buildDir, es, hr⟩ := h
  exact FlagInv_run env es _ s (FlagInv_start env buildDir) hr

/-- C19 (at most one provider instance).  The log `created` is incremented by
`ProcessHandshake` where it evaluates `new cmake`, the only place where a
provider is instantiated.  In every state reachable by chunk arrivals and write
completions, whatever handshake requests the chunks held and wherever, it is
at most 1: `ProcessHandshake` has run at most once. -/
theorem handshake_at_most_once (env : Env) (s : Server) (h : Reachable env s) :
    s.created ≤ 1 :=
  (Reachable_flagInv h).created_le

/-- C19 at a concrete trace: two handshake requests arrive in one chunk and two
writes complete; both requests are dispatched, the second one in
ProcessingRequests, where it is dropped, and one instance has been created. -/
theorem handshake_at_most_once_witness :
    Reachable Fake.env
      (on_stdout_write Fake.env (on_stdout_write Fake.env
        (handleData Fake.env (start Fake.env "/build") (Fake.handshake ++ Fake.handshake)))) ∧
    (on_stdout_write Fake.env (on_stdout_write Fake.env
        (handleData Fake.env (start Fake.env "/build")
          (Fake.handshake ++ Fake.handshake)))).dispatched.length = 2 ∧
    (on_stdout_write Fake.env (on_stdout_write Fake.env
        (handleData Fake.env (start Fake.env "/build")
          (Fake.handshake ++ Fake.handshake)))).created ≤ 1 :=
  ⟨⟨"/build", [.chunk (Fake.handshake ++ Fake.handshake), .writeDone, .writeDone], by
      simp only [run, step, Option.some_bind]
      rw [if_pos (by decide), Option.some_bind, if_pos (by decide), Option.some_bind]⟩,
    by decide,
    handshake_at_most_once Fake.env _
      ⟨"/build", [.chunk (Fake.handshake ++ Fake.handshake), .writeDone, .writeDone], by
        simp only [run, step, Option.some_bind]
        rw [if_pos (by decide), Option.some_bind, if_pos (by decide), Option.some_bind]⟩⟩

/-- C20 (the Writing flag never sticks).  In every state reachable from
`ServeMetadata` by chunk arrivals and write completions, if Writing is true
then an issued write is still pending completion, so the event loop can still
deliver a completion, which runs `on_stdout_write` and with it `PopOne`. -/
theorem writing_has_pending_write (env : Env) (s : Server) (h : Reachable env s)
    (hw : s.Writing = true) :
    s.completed < s.written.length ∧
    step env s .writeDone = some (on_stdout_write env s) := by
  have hp := (Reachable_flagInv h).writing_pending hw
  exact ⟨hp, by simp [step, hp]⟩

/-- C20 at the start of the event loop: the flag is set and the
process-started write is pending. -/
theorem writing_has_pending_write_witness :
    Reachable Fake.env (start Fake.env "/build") ∧
    (start Fake.env "/build").Writing = true ∧
    (start Fake.env "/build").completed < (start Fake.env "/build").written.length :=
  ⟨⟨"/build", [], rfl⟩, rfl,
    (writing_has_pending_write Fake.env (start Fake.env "/build") ⟨"/build", [], rfl⟩ rfl).1⟩

/-! ### Json objects and arrays -/

theorem lookup_insert_self (key : String) (x : Value) : ∀ (m : List (String × Value)),
    lookup key (Json.insert key x m) = some x
  | [] => by simp [Json.insert, lookup]
  | (k, v) :: rest => by
    by_cases h1 : k = key
    · simp [Json.insert, lookup, h1]
    · by_cases h2 : key.data < k.data
      · simp [Json.insert, lookup, h1, h2]
      · simp [Json.insert, lookup, h1, h2, lookup_insert_self key x rest]

theorem lookup_insert_ne {k key : String} (x : Value) (h : k ≠ key) :
    ∀ (m : List (String × Value)), lookup k (Json.insert key x m) = lookup k m
  | [] => by simp [Json.insert, lookup, Ne.symm h]
  | (k2, v) :: rest => by
    by_cases h1 : k2 = key
    · subst h1
      simp [Json.insert, lookup, Ne.symm h]
    · by_cases h2 : key.data < k2.data
      · simp [Json.insert, lookup, h1, h2, Ne.symm h]
      · by_cases h3 : k2 = k
        · subst h3
          simp [Json.insert, lookup, h1, h2]
        · simp [Json.insert, lookup, h1, h2, h3, lookup_insert_ne x h rest]

theorem get_set_self (v : Value) (key : String) (x : Value) : (v.set key x).get key = x := by
  cases v <;> simp [Value.set, Value.get, lookup, lookup_insert_self]

theorem get_set_ne (v : Value) {k key : String} (x : Value) (h : k ≠ key) :
    (v.set key x).get k = v.get k := by
  cases v <;> simp [Value.set, Value.get, lookup, lookup_insert_ne x h, Ne.symm h]

theorem foldl_append_strings : ∀ (items : List String) (acc : List Value),
    List.foldl (fun (a : Value) (item : String) => a.append (.string item)) (.array acc) items
      = .array (acc ++ items.map Value.string)
  | [], acc => by simp
  | i :: is, acc => by
    rw [List.foldl_cons]
    show List.foldl _ (Value.array (acc ++ [Value.string i])) is = _
    rw [foldl_append_strings is]
    simp

theorem stringArray_eq (items : List String) : stringArray items = strings items := by
  have h := foldl_append_strings items []
  simp only [List.nil_append] at h
  exact h

theorem foldl_splitGenerated : ∀ (files : List cmSourceFile) (a b : List Value),
    List.foldl
      (fun (acc : Value × Value) (sf : cmSourceFile) =>
        if sf.GENERATED then (acc.1, acc.2.append (.string sf.GetFullPath))
        else (acc.1.append (.string sf.GetFullPath), acc.2))
      (Value.array a, Value.array b) files
      = (.array (a ++ (sourcePaths files false).map Value.string),
         .array (b ++ (sourcePaths files true).map Value.string))
  | [], a, b => by simp [sourcePaths]
  | sf :: rest, a, b => by
    rw [List.foldl_cons]
    cases hg : sf.GENERATED
    · show List.foldl _ (Value.array (a ++ [Value.string sf.GetFullPath]), Value.array b) rest = _
      rw [foldl_splitGenerated rest]
      simp [sourcePaths, List.filter, hg]
    · show List.foldl _ (Value.array a, Value.array (b ++ [Value.string sf.GetFullPath])) rest = _
      rw [foldl_splitGenerated rest]
      simp [sourcePaths, List.filter, hg]

theorem splitGenerated_eq (files : List cmSourceFile) :
    splitGenerated files = (strings (sourcePaths files false), strings (sourcePaths files true)) := by
  have h := foldl_splitGenerated files [] []
  simp only [List.nil_append] at h
  exact h

/-- C13 (file_info responds if and only if the lookup succeeds).  With the
provider instance in place, for every target name, configuration and file
path, `ProcessFileInfo` issues exactly one write, whose value is the empty
object, when the provider finds the target and the path is the full path of one
of its object sources for the configuration, and no write otherwise; the
session state is unchanged in both cases. -/
theorem file_info_responds_iff_found (env : Env) (s : Server) (cm : cmake)
    (tgtName config file_path : String) (hci : s.CMakeInstance = some cm) :
    (ProcessFileInfo env s tgtName config file_path).written
      = s.written ++
          (if fileFound cm tgtName config file_path then [payload env (.object [])] else []) ∧
    (ProcessFileInfo env s tgtName config file_path).State = s.State := by
  unfold ProcessFileInfo fileFound
  rw [hci]
  simp only []
  cases hf : cm.FindGeneratorTarget tgtName with
  | none => simp
  | some tgt =>
    simp only []
    cases hfind : List.find? (fun sf => sf.GetFullPath == file_path) (tgt.GetObjectSources config) with
    | none =>
      have hnot : file_path ∉ (tgt.GetObjectSources config).map fun sf => sf.GetFullPath := by
        intro hmem
        obtain ⟨sf, hsf, hp⟩ := List.mem_map.mp hmem
        have := List.find?_eq_none.mp hfind sf hsf
        simp [hp] at this
      simp [hnot]
    | some file =>
      have hmem : file_path ∈ (tgt.GetObjectSources config).map fun sf => sf.GetFullPath := by
        have h1 := List.mem_of_find?_eq_some hfind
        have h2 := List.find?_some hfind
        simp only [beq_iff_eq] at h2
        exact List.mem_map.mpr ⟨file, h1, h2⟩
      simp [hmem, WriteResponse_eq, objectValue]

/-- C13 with the fake provider: a path that is not among the object sources of
"app" gets no response, and `/src/main.c` gets the empty object. -/
theorem file_info_responds_iff_found_witness :
    Fake.ready.CMakeInstance = some Fake.provider ∧
    fileFound Fake.provider "app" "Debug" "/src/other.c" = false ∧
    (ProcessFileInfo Fake.env Fake.ready "app" "Debug" "/src/other.c").written
      = Fake.ready.written ++
          (if fileFound Fake.provider "app" "Debug" "/src/other.c"
            then [payload Fake.env (.object [])] else []) ∧
    fileFound Fake.provider "app" "Debug" "/src/main.c" = true ∧
    (ProcessFileInfo Fake.env Fake.ready "app" "Debug" "/src/main.c").written
      = Fake.ready.written ++
          (if fileFound Fake.provider "app" "Debug" "/src/main.c"
            then [payload Fake.env (.object [])] else []) :=
  ⟨rfl, by decide,
    (file_info_responds_iff_found Fake.env Fake.ready Fake.provider "app" "Debug"
      "/src/other.c" rfl).1,
    by decide,
    (file_info_responds_iff_found Fake.env Fake.ready Fake.provider "app" "Debug"
      "/src/main.c" rfl).1⟩

/-! ### The `target_info` response -/

/-- The response of `ProcessTargetInfo` for a target the provider finds, member
by member. -/
theorem ProcessTargetInfo_found (env : Env) (s : Server) (cm : cmake) (tgt : cmGeneratorTarget)
    (tgtName config : String) (language : Option String)
    (hci : s.CMakeInstance = some cm) (hfind : cm.FindGeneratorTarget tgtName = some tgt) :
    ∃ root,
      ProcessTargetInfo env s tgtName config language
        = WriteResponse env s (.object [("target_info", root)]) ∧
      root.get "object_sources" = strings (sourcePaths (tgt.GetObjectSources config) false) ∧
      root.get "generated_object_sources"
        = strings (sourcePaths (tgt.GetObjectSources config) true) ∧
      root.get "header_sources" = strings (sourcePaths (tgt.GetHeaderSources config) false) ∧
      root.get "generated_header_sources"
        = strings (sourcePaths (tgt.GetHeaderSources config) true) ∧
      root.get "compile_definitions"
        = strings (tgt.GetCompileDefinitions config (language.getD "C")) ∧
      root.get "compile_features" = strings [] ∧
      root.get "compile_options" = strings [] ∧
      root.get "include_directories"
        = strings (tgt.GetIncludeDirectories (language.getD "C") config) := by
  unfold ProcessTargetInfo
  rw [hci]
  simp only [hfind]
  refine ⟨_, rfl, ?_, ?_, ?_, ?_, ?_, ?_, ?_, ?_⟩ <;>
    simp [get_set_self, get_set_ne, splitGenerated_eq, stringArray_eq]

theorem sourcePaths_length (files : List cmSourceFile) :
    (sourcePaths files false).length + (sourcePaths files true).length = files.length := by
  induction files with
  | nil => rfl
  | cons sf rest ih =>
    cases hg : sf.GENERATED <;>
      simp [sourcePaths, List.filter, hg] at ih ⊢ <;> omega

/-- C11 on the code.  For a target the provider finds, every configuration
and language, the `target_info` response carries compile_definitions and
include_directories equal, element for element and in order, to the lists the
provider returns; compile_features and compile_options are empty arrays
whatever the provider returns for them, because the provider's features and
options are appended to the definitions vector after it has been reported,
while the vectors that are reported stay empty. -/
theorem target_info_compile_lists (env : Env) (s : Server) (cm : cmake)
    (tgt : cmGeneratorTarget) (tgtName config : String) (language : Option String)
    (hci : s.CMakeInstance = some cm) (hfind : cm.FindGeneratorTarget tgtName = some tgt) :
    ∃ root,
      (ProcessTargetInfo env s tgtName config language).written
        = s.written ++ [payload env (.object [("target_info", root)])] ∧
      root.get "compile_definitions"
        = strings (tgt.GetCompileDefinitions config (language.getD "C")) ∧
      root.get "include_directories"
        = strings (tgt.GetIncludeDirectories (language.getD "C") config) ∧
      root.get "compile_features" = strings [] ∧
      root.get "compile_options" = strings [] := by
  obtain ⟨root, h, -, -, -, -, h5, h6, h7, h8⟩ :=
    ProcessTargetInfo_found env s cm tgt tgtName config language hci hfind
  exact ⟨root, by rw [h, WriteResponse_eq], h5, h8, h6, h7⟩

/-- C11 with the fake provider: the target "app" has the compile feature
`c_std_99` and the compile option `-Wall`, and the response for it lists no
feature and no option. -/
theorem target_info_compile_lists_witness :
    Fake.app.GetCompileFeatures "Debug" = ["c_std_99"] ∧
    Fake.app.GetCompileOptions "Debug" "C" = ["-Wall"] ∧
    (ProcessTargetInfo Fake.env Fake.ready "app" "Debug" none).written.getLast?
      = some ("\n[== CMake MetaMagic ==[\n\x7b\"target_info\":\x7b\"build_location\":\"/build/Debug/app\",\"compile_definitions\":[\"APP=1\"],\"compile_features\":[],\"compile_options\":[],\"generated_header_sources\":[],\"generated_object_sources\":[\"/build/gen.c\"],\"header_sources\":[\"/src/main.h\"],\"include_directories\":[\"/src/include\"],\"object_sources\":[\"/src/main.c\"]\x7d\x7d\n]== CMake MetaMagic ==]\n").toList ∧
    ∃ root,
      (ProcessTargetInfo Fake.env Fake.ready "app" "Debug" none).written
        = Fake.ready.written ++ [payload Fake.env (.object [("target_info", root)])] ∧
      root.get "compile_definitions"
        = strings (Fake.app.GetCompileDefinitions "Debug" ((none : Option String).getD "C")) ∧
      root.get "include_directories"
        = strings (Fake.app.GetIncludeDirectories ((none : Option String).getD "C") "Debug") ∧
      root.get "compile_features" = strings [] ∧
      root.get "compile_options" = strings [] :=
  ⟨rfl, rfl, by decide,
    target_info_compile_lists Fake.env Fake.ready Fake.provider Fake.app "app" "Debug" none
      rfl rfl⟩

/-- C12 (target_info partitions the sources by the GENERATED property).  For
a target the provider finds, generated_object_sources is the full paths of the
provider's object sources that carry the GENERATED property and object_sources
those of the object sources that do not, each in the provider's order, so each
object source is in exactly one of the two lists; the same holds for
generated_header_sources and header_sources over the provider's header
sources. -/
theorem target_info_partitions_sources (env : Env) (s : Server) (cm : cmake)
    (tgt : cmGeneratorTarget) (tgtName config : String) (language : Option String)
    (hci : s.CMakeInstance = some cm) (hfind : cm.FindGeneratorTarget tgtName = some tgt) :
    ∃ root,
      (ProcessTargetInfo env s tgtName config language).written
        = s.written ++ [payload env (.object [("target_info", root)])] ∧
      root.get "generated_object_sources"
        = strings (sourcePaths (tgt.GetObjectSources config) true) ∧
      root.get "object_sources" = strings (sourcePaths (tgt.GetObjectSources config) false) ∧
      (sourcePaths (tgt.GetObjectSources config) false).length
          + (sourcePaths (tgt.GetObjectSources config) true).length
        = (tgt.GetObjectSources config).length ∧
      root.get "generated_header_sources"
        = strings (sourcePaths (tgt.GetHeaderSources config) true) ∧
      root.get "header_sources" = strings (sourcePaths (tgt.GetHeaderSources config) false) ∧
      (sourcePaths (tgt.GetHeaderSources config) false).length
          + (sourcePaths (tgt.GetHeaderSources config) true).length
        = (tgt.GetHeaderSources config).length := by
  obtain ⟨root, h, h1, h2, h3, h4, -, -, -, -⟩ :=
    ProcessTargetInfo_found env s cm tgt tgtName config language hci hfind
  exact ⟨root, by rw [h, WriteResponse_eq], h2, h1, sourcePaths_length _, h4, h3,
    sourcePaths_length _⟩

/-- C12 with the fake provider: "app" has the object sources `/src/main.c` and
the generated `/build/gen.c`. -/
theorem target_info_partitions_sources_witness :
    sourcePaths (Fake.app.GetObjectSources "Debug") true = ["/build/gen.c"] ∧
    sourcePaths (Fake.app.GetObjectSources "Debug") false = ["/src/main.c"] ∧
    ∃ root,
      (ProcessTargetInfo Fake.env Fake.ready "app" "Debug" none).written
        = Fake.ready.written ++ [payload Fake.env (.object [("target_info", root)])] ∧
      root.get "generated_object_sources"
        = strings (sourcePaths (Fake.app.GetObjectSources "Debug") true) ∧
      root.get "object_sources" = strings (sourcePaths (Fake.app.GetObjectSources "Debug") false) ∧
      (sourcePaths (Fake.app.GetObjectSources "Debug") false).length
          + (sourcePaths (Fake.app.GetObjectSources "Debug") true).length
        = (Fake.app.GetObjectSources "Debug").length ∧
      root.get "generated_header_sources"
        = strings (sourcePaths (Fake.app.GetHeaderSources "Debug") true) ∧
      root.get "header_sources" = strings (sourcePaths (Fake.app.GetHeaderSources "Debug") false) ∧
      (sourcePaths (Fake.app.GetHeaderSources "Debug") false).length
          + (sourcePaths (Fake.app.GetHeaderSources "Debug") true).length
        = (Fake.app.GetHeaderSources "Debug").length :=
  ⟨by decide, by decide,
    target_info_partitions_sources Fake.env Fake.ready Fake.provider Fake.app "app" "Debug" none
      rfl rfl⟩

/-! ### The `buildsystem` response -/

/-- C14, as stated, fails: the target "lib" belongs to the local generator of
the project "sub", and its entry carries the project name "demo" of the first
local generator.  (The imported "ext" and the global "install" have no entry,
and "iface", whose kind is above the utility ordinal, has no backtrace.) -/
theorem buildsystem_reports_first_project :
    Fake.providerTwo.GetLocalGenerators.map
        (fun g => (g.GetProjectName, g.GetGeneratorTargets.map fun t => t.GetName))
      = [("demo", ["app", "ext"]), ("sub", ["lib", "install", "iface"])] ∧
    (ProcessBuildsystem Fake.envTwo Fake.readyTwo).written.getLast?
      = some ("\n[== CMake MetaMagic ==[\n\x7b\"buildsystem\":\x7b\"configs\":[\"Debug\"],\"globalTargets\":[],\"targets\":[\x7b\"backtrace\":[\x7b\"line\":3,\"path\":\"/src/CMakeLists.txt\"\x7d],\"name\":\"app\",\"projectName\":\"demo\",\"type\":\"EXECUTABLE\"\x7d,\x7b\"backtrace\":[\x7b\"line\":2,\"path\":\"/src/sub/CMakeLists.txt\"\x7d],\"name\":\"lib\",\"projectName\":\"demo\",\"type\":\"LIBRARY\"\x7d,\x7b\"name\":\"iface\",\"projectName\":\"demo\",\"type\":\"LIBRARY\"\x7d]\x7d\x7d\n]== CMake MetaMagic ==]\n").toList := by
  decide

theorem frame_object (f : FrameContext) :
    (objectValue.set "path" (.string f.FilePath)).set "line" (.int f.Line) = frameEntry f := by
  have h1 : ("path" : String) ≠ "line" := by decide
  have h2 : ("line" : String).toList < ("path" : String).toList := by decide
  simp only [objectValue, Value.set, Json.insert, frameEntry, h1, h2, if_true, if_false]

theorem foldl_backtrace : ∀ (frames : List FrameContext) (acc : List Value),
    List.foldl
      (fun (bt : Value) (lbtF : FrameContext) =>
        bt.append ((objectValue.set "path" (.string lbtF.FilePath)).set "line" (.int lbtF.Line)))
      (.array acc) frames
      = .array (acc ++ frames.map frameEntry)
  | [], acc => by simp
  | f :: fs, acc => by
    rw [List.foldl_cons]
    show List.foldl _ (Value.array (acc ++ [_])) fs = _
    rw [foldl_backtrace fs, frame_object]
    simp

theorem backtraceValue_eq (frames : List FrameContext) :
    backtraceValue frames = .array (frames.map frameEntry) := by
  have h := foldl_backtrace frames []
  simp only [List.nil_append] at h
  exact h

/-- The entry `ProcessBuildsystem` builds for one generator target. -/
theorem buildsystemTarget_eq (env : Env) (lg : cmLocalGenerator) (t : cmGeneratorTarget) :
    buildsystemTarget env lg t
      = if (!t.IsImported && !decide (t.GetType = env.GLOBAL_TARGET)) = true
          then some (targetEntry env lg.GetProjectName t) else none := by
  have h1 : ("name" : String) ≠ "type" := by decide
  have h2 : ¬ ("type" : String).toList < ("name" : String).toList := by decide
  have h3 : ("name" : String) ≠ "backtrace" := by decide
  have h4 : ("backtrace" : String).toList < ("name" : String).toList := by decide
  have h5 : ("backtrace" : String) ≠ "projectName" := by decide
  have h6 : ¬ ("projectName" : String).toList < ("backtrace" : String).toList := by decide
  have h7 : ("name" : String) ≠ "projectName" := by decide
  have h8 : ¬ ("projectName" : String).toList < ("name" : String).toList := by decide
  have h9 : ("type" : String) ≠ "projectName" := by decide
  have h10 : ("projectName" : String).toList < ("type" : String).toList := by decide
  unfold buildsystemTarget targetEntry
  cases hi : t.IsImported
  · by_cases hg : t.GetType = env.GLOBAL_TARGET
    · simp [hg]
    · by_cases hu : t.GetType ≤ env.UTILITY
      · simp only [hg, hu, if_true, if_false, Bool.not_false, Bool.true_and, decide_False,
          Bool.false_eq_true, backtraceValue_eq]
        simp only [objectValue, Value.set, Json.insert, h1, h2, h3, h4, h5, h6, h7, h8, h9, h10,
          if_true, if_false]
      · simp only [hg, hu, if_true, if_false, Bool.not_false, Bool.true_and, decide_False,
          Bool.false_eq_true]
        simp only [objectValue, Value.set, Json.insert, h1, h2, h7, h8, h9, h10,
          if_true, if_false]
  · simp

theorem foldl_targets (bt : cmGeneratorTarget → Option Value) :
    ∀ (tgts : List cmGeneratorTarget) (acc : List Value),
    List.foldl
      (fun (a : Value) (tgt : cmGeneratorTarget) =>
        match bt tgt with
        | none => a
        | some target => a.append target)
      (.array acc) tgts
      = .array (acc ++ tgts.filterMap bt)
  | [], acc => by simp
  | t :: ts, acc => by
    rw [List.foldl_cons]
    cases h : bt t with
    | none =>
      show List.foldl _ (Value.array acc) ts = _
      rw [foldl_targets bt ts]
      simp [List.filterMap_cons, h]
    | some x =>
      show List.foldl _ (Value.array (acc ++ [x])) ts = _
      rw [foldl_targets bt ts]
      simp [List.filterMap_cons, h]

theorem foldl_generators (bt : cmGeneratorTarget → Option Value) :
    ∀ (gens : List cmLocalGenerator) (acc : List Value),
    List.foldl
      (fun (a : Value) (gen : cmLocalGenerator) =>
        List.foldl
          (fun (a : Value) (tgt : cmGeneratorTarget) =>
            match bt tgt with
            | none => a
            | some target => a.append target)
          a gen.GetGeneratorTargets)
      (.array acc) gens
      = .array (acc ++ (gens.flatMap fun gen => gen.GetGeneratorTargets).filterMap bt)
  | [], acc => by simp
  | g :: gs, acc => by
    rw [List.foldl_cons, foldl_targets bt, foldl_generators bt gs]
    simp [List.flatMap_cons, List.filterMap_append]

theorem filterMap_buildsystemTarget (env : Env) (lg : cmLocalGenerator)
    (ts : List cmGeneratorTarget) :
    ts.filterMap (buildsystemTarget env lg)
      = (ts.filter fun t => !t.IsImported && !decide (t.GetType = env.GLOBAL_TARGET)).map
          (targetEntry env lg.GetProjectName) := by
  induction ts with
  | nil => rfl
  | cons t ts ih =>
    rw [List.filterMap_cons, buildsystemTarget_eq]
    cases h : (!t.IsImported && !decide (t.GetType = env.GLOBAL_TARGET))
    · simp [List.filter, h, ih]
    · simp [List.filter, h, ih]

/-- C14, amended.  With the provider instance in place, the `targets` list of
the buildsystem response has exactly one entry for every provider target that
is neither imported nor of the global kind, in provider enumeration order, and
none for the others; each entry carries that target's own name, its type tag
and the project name of the first local generator, and carries a backtrace
(the target's declaration frames as path/line pairs, in order) exactly when the
target's kind is at or below the utility ordinal. -/
theorem buildsystem_targets (env : Env) (s : Server) (cm : cmake)
    (hci : s.CMakeInstance = some cm) :
    ∃ obj,
      (ProcessBuildsystem env s).written
        = s.written ++ [payload env (.object [("buildsystem", obj)])] ∧
      obj.get "targets"
        = .array ((listedTargets env cm).map
            (targetEntry env (cm.GetLocalGenerators.getD 0 default).GetProjectName)) := by
  unfold ProcessBuildsystem
  rw [hci]
  refine ⟨_, rfl, ?_⟩
  simp only [get_set_self]
  have h := foldl_generators
    (buildsystemTarget env (cm.GetLocalGenerators.getD 0 default)) cm.GetLocalGenerators []
  simp only [List.nil_append] at h
  rw [arrayValue, h, filterMap_buildsystemTarget]
  rfl

/-- C14 amended, with the two-project provider: the listed targets are "app",
"lib" and "iface", each with the project name "demo". -/
theorem buildsystem_targets_witness :
    Fake.readyTwo.CMakeInstance = some Fake.providerTwo ∧
    (listedTargets Fake.envTwo Fake.providerTwo).map (fun t => t.GetName)
      = ["app", "lib", "iface"] ∧
    (Fake.providerTwo.GetLocalGenerators.getD 0 default).GetProjectName = "demo" ∧
    ∃ obj,
      (ProcessBuildsystem Fake.envTwo Fake.readyTwo).written
        = Fake.readyTwo.written ++ [payload Fake.envTwo (.object [("buildsystem", obj)])] ∧
      obj.get "targets"
        = .array ((listedTargets Fake.envTwo Fake.providerTwo).map
            (targetEntry Fake.envTwo
              (Fake.providerTwo.GetLocalGenerators.getD 0 default).GetProjectName)) :=
  ⟨rfl, by decide, rfl, buildsystem_targets Fake.envTwo Fake.readyTwo Fake.providerTwo rfl⟩
